import Mathlib

/-!
# Curing: the file streamer, the dispatcher, the byte-stream adapter and start-up validation

A shallow embedding of `pkg/common/request.go`, `pkg/server/server.go`, `cmd/main.go` and
`server/main.go`.

The io_uring ring, the kernel and the configuration loader are outside the program.  They are
represented by oracle records (`World`, `Context`, `Env`): every value the program obtains from
them is a field of such a record, and every theorem quantifies over the records.

Go strings are Lean `String`s, `[]byte` is `List UInt8`, and `[]byte(s)` is the UTF-8 encoding
`bytesOf s`.  Go `int` and `int64` are `Int`; conversions and additions that could leave the
64-bit range go through `wrapInt64`.
-/

namespace Curing

/-! ## Go primitives -/

/-- The conversion `[]byte(s)`: the UTF-8 bytes of the string. -/
def bytesOf (s : String) : List UInt8 :=
  s.data.flatMap String.utf8EncodeChar

/-- Two's-complement reduction of an integer to the `int64` range. -/
def wrapInt64 (x : Int) : Int :=
  if x % 2 ^ 64 < 2 ^ 63 then x % 2 ^ 64 else x % 2 ^ 64 - 2 ^ 64

/-! ## pkg/common/request.go -/

structure Result where
  CommandID : String
  ReturnCode : Int
  Output : List UInt8
  deriving DecidableEq, Repr

/-- The requests the file streamer prepares: `iouring.Openat`, `iouring.Statx`,
`iouring.Pread(fd, buf, offset)` with `len = len(buf)`, and `iouring.Close`. -/
inductive Op where
  | openat (path : String)
  | statx (fd : Int)
  | pread (fd : Int) (len : Nat) (off : Nat)
  | close (fd : Int)
  deriving DecidableEq, Repr

/-- One `iouring.Result` taken from the result channel.  `err` is `Err()`, `ret` is
`ReturnValue0().(int)`, `size` is what a statx request stored in `statxBuf.Size`, and `data` is
what a read request stored at the start of its buffer. -/
structure Completion where
  err : Option String
  ret : Int
  size : Nat
  data : List UInt8
  deriving DecidableEq, Repr

/-- Everything outside the program that `handleFileReadRequest` depends on.
* `newRing`: the error of `iouring.New(32)`, if any;
* `prepOpenat`, `prepStatx`: the error of building the request, if any;
* `submitErr n op`: the error of the `n`-th call of `ring.SubmitRequest`, if any;
* `completion n op`: the completion the kernel posts for the request `op` submitted by call `n`;
* `pollReady n`: whether a completion is already queued on the channel when `closeFile` polls it
  after `n` calls of `SubmitRequest`;
* `maxAlloc`: the largest capacity the runtime grants to `make([]byte, 0, n)`, the constant
  `maxAlloc` of `runtime.makeslice` (`2^48` on linux/amd64). -/
structure World where
  maxAlloc : Nat
  newRing : Option String
  prepOpenat : String → Option String
  prepStatx : Int → Option String
  submitErr : Nat → Op → Option String
  completion : Nat → Op → Completion
  pollReady : Nat → Bool

/-- A `context.Context` as the selects see it: `done n` tells whether the `n`-th select executed
by the run takes its `<-ctx.Done()` case. -/
structure Context where
  done : Nat → Bool

/-- The context `context.Background()`: its `Done()` channel is nil and is never ready. -/
def Context.Background : Context :=
  ⟨fun _ => false⟩

/-- What the run did, in order.  `appended k` marks `output = append(output, buf[:k]...)`. -/
inductive Event where
  | submitted (op : Op)
  | submitFailed (op : Op)
  | received (op : Op) (c : Completion)
  | appended (k : Nat)
  | ringClosed
  deriving DecidableEq, Repr

/-- The ring and its result channel: the number of `SubmitRequest` calls and of selects made so
far, the accepted requests whose completion has not been received (oldest first, each with the
index of its `SubmitRequest` call), and the events so far. -/
structure Ring where
  submits : Nat
  selects : Nat
  inflight : List (Nat × Op)
  trace : List Event
  deriving DecidableEq, Repr

def Ring.init : Ring :=
  ⟨0, 0, [], []⟩

def Ring.emit (st : Ring) (e : Event) : Ring :=
  { st with trace := st.trace ++ [e] }

/-- One select has been executed. -/
def Ring.tick (st : Ring) : Ring :=
  { st with selects := st.selects + 1 }

/-- The call `ring.SubmitRequest(req, resultChan)`; returns its error, if any. -/
def SubmitRequest (w : World) (st : Ring) (op : Op) : Option String × Ring :=
  match w.submitErr st.submits op with
  | some err =>
    (some err, { st with submits := st.submits + 1, trace := st.trace ++ [Event.submitFailed op] })
  | none =>
    (none, { st with submits := st.submits + 1,
                     inflight := st.inflight ++ [(st.submits, op)],
                     trace := st.trace ++ [Event.submitted op] })

/-- The receive `<-resultChan`: takes the completion of the oldest request in flight.  With
nothing in flight the receive would wait for ever (`none`). -/
def receive (w : World) (st : Ring) : Option (Completion × Ring) :=
  match st.inflight with
  | [] => none
  | (n, op) :: rest =>
    some (w.completion n op,
      { st with inflight := rest, trace := st.trace ++ [Event.received op (w.completion n op)] })

/-- How a run of `handleFileReadRequest` ends: it returns a `Result`, it panics, it waits for
ever on the channel, or it is still inside the read loop when the fuel is used up. -/
inductive Outcome where
  | returned (r : Result)
  | panicked
  | blocked
  | running
  deriving DecidableEq, Repr

/-- A `defer f()`: `f` runs when the function returns or panics, and only then. -/
def deferred (f : Ring → Ring) (run : Outcome × Ring) : Outcome × Ring :=
  match run.1 with
  | Outcome.returned r => (Outcome.returned r, f run.2)
  | Outcome.panicked => (Outcome.panicked, f run.2)
  | Outcome.blocked => run
  | Outcome.running => run

/-! ## pkg/server/server.go: the file streamer -/

/-- The constant `chunkSize = 32 * 1024`. -/
def chunkSize : Int := 32 * 1024

/-- The buffer `buf` after the read completed: `make([]byte, len)` with the delivered bytes
stored at its start. -/
def bufAfter (len : Nat) (data : List UInt8) : List UInt8 :=
  data.take len ++ List.replicate (len - data.length) 0

/-- The assignment `result.ReturnCode = 1; result.Output = []byte(msg)`. -/
def failWith (result : Result) (msg : String) : Result :=
  { result with ReturnCode := 1, Output := bytesOf msg }

/-- The loop `for offset < fileSize { ... }` of `handleFileReadRequest` and the success return
after it.  One unit of fuel is one evaluation of the loop condition.  The `break` of the
`bytesRead <= 0` branch stands inside the `select`, so it ends the `select` and the loop goes on
to its next iteration with `offset` and `output` unchanged. -/
def readLoop (ctx : Context) (w : World) (result : Result) (fd : Int) (fileSize : Int) :
    Nat → Int → List UInt8 → Ring → Outcome × Ring
  | 0, _, _, st => (Outcome.running, st)
  | fuel + 1, offset, output, st =>
    if offset < fileSize then
      -- select { case <-ctx.Done(): ...; default: }
      if ctx.done st.selects then
        (Outcome.returned (failWith result "Operation cancelled"), st.tick)
      else
        let remaining := wrapInt64 (fileSize - offset)
        let currentChunkSize := if remaining < chunkSize then remaining else chunkSize
        -- buf := make([]byte, currentChunkSize)
        if currentChunkSize < 0 then (Outcome.panicked, st.tick)
        else
          -- iouring.Pread(fd, buf, uint64(offset))
          let op := Op.pread fd currentChunkSize.toNat (offset % 2 ^ 64).toNat
          match SubmitRequest w st.tick op with
          | (some err, st1) =>
            (Outcome.returned (failWith result ("Failed to submit read request: " ++ err)), st1)
          | (none, st1) =>
            -- select { case readRes := <-resultChan: ...; case <-ctx.Done(): ... }
            if ctx.done st1.selects then
              (Outcome.returned (failWith result "Operation cancelled"), st1.tick)
            else
              match receive w st1.tick with
              | none => (Outcome.blocked, st1.tick)
              | some (readRes, st2) =>
                match readRes.err with
                | some err =>
                  (Outcome.returned (failWith result ("Failed to read file: " ++ err)), st2)
                | none =>
                  let bytesRead := readRes.ret
                  if bytesRead ≤ 0 then
                    readLoop ctx w result fd fileSize fuel offset output st2
                  else if currentChunkSize < bytesRead then
                    -- buf[:bytesRead] beyond cap(buf)
                    (Outcome.panicked, st2)
                  else
                    readLoop ctx w result fd fileSize fuel
                      (wrapInt64 (offset + bytesRead))
                      (output ++ (bufAfter currentChunkSize.toNat readRes.data).take bytesRead.toNat)
                      (st2.emit (Event.appended bytesRead.toNat))
    else
      (Outcome.returned { result with ReturnCode := 0, Output := output }, st)

/-- The test of `runtime.makeslice` for `make([]byte, 0, n)`: it panics ("makeslice: cap out
of range") when `n` is negative or above the allocator limit. -/
def capOutOfRange (w : World) (n : Int) : Bool :=
  decide (n < 0) || decide ((w.maxAlloc : Int) < n)

/-- The part of `handleFileReadRequest` after `defer closeFile(...)`: the statx request, its
completion, and the read loop.  `output := make([]byte, 0, fileSize)` panics when the capacity
is out of range.  The buffer of an iteration, `make([]byte, currentChunkSize)`, is never larger
than `fileSize`, which `make` has accepted by then; running out of memory below the limit is
outside the model. -/
def statAndRead (ctx : Context) (w : World) (result : Result) (fuel : Nat) (fd : Int)
    (st : Ring) : Outcome × Ring :=
  match w.prepStatx fd with
  | some err =>
    (Outcome.returned (failWith result ("Failed to create statx request: " ++ err)), st)
  | none =>
    match SubmitRequest w st (Op.statx fd) with
    | (some err, st1) =>
      (Outcome.returned (failWith result ("Failed to submit statx request: " ++ err)), st1)
    | (none, st1) =>
      if ctx.done st1.selects then
        (Outcome.returned (failWith result "Operation cancelled"), st1.tick)
      else
        match receive w st1.tick with
        | none => (Outcome.blocked, st1.tick)
        | some (statxRes, st2) =>
          match statxRes.err with
          | some err =>
            (Outcome.returned (failWith result ("Failed to get file size: " ++ err)), st2)
          | none =>
            -- fileSize := int64(statxBuf.Size), a uint64
            let fileSize := wrapInt64 ((statxRes.size % 2 ^ 64 : Nat) : Int)
            if capOutOfRange w fileSize then (Outcome.panicked, st2)
            else readLoop ctx w result fd fileSize fuel 0 [] st2

/-- The function `closeFile`: submits the close and polls the channel once, without waiting
(`select` with a `default` case). -/
def closeFile (w : World) (fd : Int) (st : Ring) : Ring :=
  match SubmitRequest w st (Op.close fd) with
  | (some _, st1) => st1
  | (none, st1) =>
    if w.pollReady st1.submits then
      match receive w st1.tick with
      | none => st1.tick
      | some (_, st2) => st2
    else st1.tick

/-- The part of `handleFileReadRequest` after `defer ring.Close()`. -/
def openAndRead (ctx : Context) (w : World) (result : Result) (fuel : Nat) (filePath : String)
    (st : Ring) : Outcome × Ring :=
  match w.prepOpenat filePath with
  | some err =>
    (Outcome.returned (failWith result ("Failed to create open request: " ++ err)), st)
  | none =>
    match SubmitRequest w st (Op.openat filePath) with
    | (some err, st1) =>
      (Outcome.returned (failWith result ("Failed to submit open request: " ++ err)), st1)
    | (none, st1) =>
      if ctx.done st1.selects then
        (Outcome.returned (failWith result "Operation cancelled"), st1.tick)
      else
        match receive w st1.tick with
        | none => (Outcome.blocked, st1.tick)
        | some (openRes, st2) =>
          match openRes.err with
          | some err =>
            (Outcome.returned (failWith result ("Failed to open file: " ++ err)), st2)
          | none =>
            let fd := openRes.ret
            deferred (closeFile w fd) (statAndRead ctx w result fuel fd st2)

/-- The body of `handleFileReadRequest` for a given context. -/
def handleFileReadRequestWith (ctx : Context) (w : World) (fuel : Nat) (filePath : String) :
    Outcome × Ring :=
  let result : Result := { CommandID := "file-read-" ++ filePath, ReturnCode := 0, Output := [] }
  match w.newRing with
  | some err => (Outcome.returned (failWith result ("Failed to create io_uring: " ++ err)), Ring.init)
  | none =>
    deferred (fun st => st.emit Event.ringClosed) (openAndRead ctx w result fuel filePath Ring.init)

/-- The function `handleFileReadRequest`: its context is `context.Background()`. -/
def handleFileReadRequest (w : World) (fuel : Nat) (filePath : String) : Outcome × Ring :=
  handleFileReadRequestWith Context.Background w fuel filePath

/-! ## Reading a trace -/

/-- The number of bytes appended to `output` by the events `tr`. -/
def appendedBytes : List Event → Nat
  | [] => 0
  | Event.appended k :: tr => k + appendedBytes tr
  | _ :: tr => appendedBytes tr

/-- The requests accepted by the ring during `tr` whose completion `tr` has not received. -/
def awaiting (tr : List Event) : List Op :=
  tr.foldl (fun acc e =>
    match e with
    | Event.submitted op => acc ++ [op]
    | Event.received op _ => acc.erase op
    | _ => acc) []

/-- The request accepted last during `tr`, if any. -/
def lastSubmitted (tr : List Event) : Option Op :=
  tr.foldl (fun acc e =>
    match e with
    | Event.submitted op => some op
    | _ => acc) none

/-- The serial discipline, event by event: with `p` the request awaiting its completion, a
request may be accepted only when none is awaited, and a completion may be received only when
it is the one of the awaited request. -/
def serialStep (p : Option Op) : Event → Option (Option Op)
  | Event.submitted op => if p = none then some (some op) else none
  | Event.received op _ => if p = some op then some none else none
  | _ => some p

/-- Runs `serialStep` over a trace; `none` when the discipline is broken. -/
def serialRun (tr : List Event) : Option (Option Op) :=
  tr.foldlM serialStep none

/-- The chunking discipline for a file of `S` bytes, event by event: with `a` the number of
bytes appended so far, a read must start at `a` and ask for `min(32768, S - a) >= 1` bytes, and
an append must not take the output beyond `S`. -/
def chunkStep (S : Nat) (a : Nat) : Event → Option Nat
  | Event.submitted (Op.pread _ len off) =>
    if off = a ∧ len = min 32768 (S - a) ∧ 1 ≤ len then some a else none
  | Event.submitFailed (Op.pread _ len off) =>
    if off = a ∧ len = min 32768 (S - a) ∧ 1 ≤ len then some a else none
  | Event.appended k => if a + k ≤ S then some (a + k) else none
  | _ => some a

/-- Runs `chunkStep` over a trace; `none` when the discipline is broken. -/
def chunkRun (S : Nat) (tr : List Event) : Option Nat :=
  tr.foldlM (chunkStep S) 0

/-- The completion of the open request: it is the first request submitted. -/
def openCompletion (w : World) (filePath : String) : Completion :=
  w.completion 0 (Op.openat filePath)

/-- The completion of the statx request: it is the second request submitted, on the descriptor
the open returned. -/
def statCompletion (w : World) (filePath : String) : Completion :=
  w.completion 1 (Op.statx (openCompletion w filePath).ret)

/-- The ring state after the request `op` was accepted and its completion received in the
following select, starting from a state with nothing in flight. -/
def exchange (w : World) (st : Ring) (op : Op) : Ring :=
  ⟨st.submits + 1, st.selects + 1, [],
    st.trace ++ [Event.submitted op] ++ [Event.received op (w.completion st.submits op)]⟩

/-- The ring state after `SubmitRequest` refused the request `op`. -/
def refusal (st : Ring) (op : Op) : Ring :=
  ⟨st.submits + 1, st.selects, st.inflight, st.trace ++ [Event.submitFailed op]⟩

/-- The ring state once the open completion has been received. -/
def afterOpen (w : World) (filePath : String) : Ring :=
  exchange w Ring.init (Op.openat filePath)

/-- The ring state once the open and the statx completions have been received. -/
def afterStat (w : World) (filePath : String) : Ring :=
  exchange w (afterOpen w filePath) (Op.statx (openCompletion w filePath).ret)

/-- The conversion `int64(statxBuf.Size)` of the `uint64` size a statx completion stored. -/
def sizeOf64 (c : Completion) : Int :=
  wrapInt64 ((c.size % 2 ^ 64 : Nat) : Int)

/-- The file size the loop works with. -/
def statSize (w : World) (filePath : String) : Int :=
  sizeOf64 (statCompletion w filePath)

/-- The length requested by the loop iteration at `offset`: `chunkSize`, or what remains. -/
def chunkLen (fileSize offset : Int) : Int :=
  if wrapInt64 (fileSize - offset) < chunkSize then wrapInt64 (fileSize - offset) else chunkSize

/-- The request of the loop iteration at `offset`. -/
def nextRead (fd fileSize offset : Int) : Op :=
  Op.pread fd (chunkLen fileSize offset).toNat (offset % 2 ^ 64).toNat

/-! ## pkg/server/server.go: the dispatcher -/

/-- The outcome of the one ring operation a `Read` or `Write` performs: `SubmitRequest` fails,
the completion carries an error, or the completion reports `n` (and, for a read, the kernel has
stored `data` at the start of the request buffer). -/
inductive IOResult where
  | submitFailed (err : String)
  | failed (err : String)
  | completed (n : Int) (data : List UInt8)
  deriving DecidableEq, Repr

/-- What a call of `Read` or `Write` yields: the pair `(n, err)` and the caller's buffer
afterwards, or a panic. -/
inductive Returned where
  | value (n : Int) (err : Option String) (buf : List UInt8)
  | panicked
  deriving DecidableEq, Repr

/-- The caller's buffer after the kernel stored `data` at its start. -/
def stored (buf : List UInt8) (data : List UInt8) : List UInt8 :=
  data.take buf.length ++ buf.drop data.length

/-- The method `UringRWer.Read`.  `cap` is `cap(buf)`.  `result.GetRequestBuffer()` is the
buffer handed to `iouring.Read`, that is `buf` itself, so the `copy` leaves it as the kernel
left it; the slice expressions `buf[:n]` panic unless `0 <= n <= cap(buf)`. -/
def UringRWer.Read (buf : List UInt8) (cap : Nat) (io : IOResult) : Returned :=
  match io with
  | IOResult.submitFailed err => Returned.value (-1) (some err) buf
  | IOResult.failed err => Returned.value (-1) (some err) buf
  | IOResult.completed n data =>
    if n < 0 ∨ (cap : Int) < n then Returned.panicked
    else Returned.value n none (stored buf data)

/-- The method `UringRWer.Write`. -/
def UringRWer.Write (buf : List UInt8) (io : IOResult) : Returned :=
  match io with
  | IOResult.submitFailed err => Returned.value (-1) (some err) buf
  | IOResult.failed err => Returned.value (-1) (some err) buf
  | IOResult.completed n _ => Returned.value n none buf

/-! ## cmd/main.go and server/main.go: start-up -/

/-- Modelled from the spec: the configuration record of `pkg/config` (`ServerHost`,
`ServerPort`), whose declaration is not among the sources. -/
structure ServerDetails where
  Host : String
  Port : Int
  deriving DecidableEq, Repr

/-- Modelled from the spec: the configuration `{ServerHost, ServerPort, AgentID}`. -/
structure Config where
  Server : ServerDetails
  AgentID : String
  deriving DecidableEq, Repr

/-- What start-up reads from outside: `os.ReadFile("/etc/machine-id")` and
`config.LoadConfig(path)`. -/
structure Env where
  machineID : Except String String
  loadConfig : String → Except String Config

/-- The flags of `cmd/main.go`. -/
structure ClientFlags where
  interactive : Bool
  host : String
  port : Int
  config : String
  help : Bool

/-- The flags of `server/main.go`. -/
structure ServerFlags where
  port : Int
  host : String
  config : String
  help : Bool

/-- How start-up ends: `os.Exit(0)` after the usage text, a fatal error, or validation passed
with the effective configuration (and only then a ring, connection or listener is created). -/
inductive Startup where
  | exit0
  | fatal (msg : String)
  | validated (cfg : Config)
  deriving DecidableEq, Repr

/-- The configuration used when the file cannot be loaded. -/
def defaultConfig : Config :=
  ⟨⟨"localhost", 8888⟩, ""⟩

/-- The overrides `if host != "" { cfg.Server.Host = host }`, `if port != 0 { ... }`. -/
def override (cfg : Config) (host : String) (port : Int) : Config :=
  let cfg1 := if host ≠ "" then { cfg with Server := { cfg.Server with Host := host } } else cfg
  if port ≠ 0 then { cfg1 with Server := { cfg1.Server with Port := port } } else cfg1

/-- The validation block of the two client paths. -/
def validateClient (cfg : Config) : Startup :=
  if cfg.Server.Port ≤ 0 ∨ cfg.Server.Port > 65535 then
    Startup.fatal ("Invalid server port: " ++ toString cfg.Server.Port ++ " (must be 1-65535)")
  else if cfg.Server.Host = "" then
    Startup.fatal "Server host cannot be empty"
  else
    Startup.validated cfg

/-- The function `runInteractiveClient` of `cmd/main.go`, up to the end of validation. -/
def runInteractiveClient (env : Env) (configFile serverHost : String) (serverPort : Int) :
    Startup :=
  match env.machineID with
  | Except.error e => Startup.fatal e
  | Except.ok agentID =>
    let cfg0 :=
      match env.loadConfig configFile with
      | Except.error _ => defaultConfig
      | Except.ok c => c
    validateClient (override { cfg0 with AgentID := agentID.trim } serverHost serverPort)

/-- The function `main` of `cmd/main.go`, up to the end of validation. -/
def clientMain (env : Env) (flags : ClientFlags) : Startup :=
  if flags.help then Startup.exit0
  else if flags.interactive then
    runInteractiveClient env flags.config flags.host flags.port
  else
    match env.machineID with
    | Except.error e => Startup.fatal e
    | Except.ok agentID =>
      match env.loadConfig flags.config with
      | Except.error e => Startup.fatal ("Failed to load config file: " ++ e)
      | Except.ok cfg0 =>
        validateClient (override { cfg0 with AgentID := agentID.trim } flags.host flags.port)

/-- The function `main` of `server/main.go`, up to the end of validation. -/
def serverMain (env : Env) (flags : ServerFlags) : Startup :=
  if flags.help then Startup.exit0
  else
    let cfg0 :=
      match env.loadConfig flags.config with
      | Except.error _ => defaultConfig
      | Except.ok c => c
    let cfg := override cfg0 flags.host flags.port
    if cfg.Server.Port ≤ 0 ∨ cfg.Server.Port > 65535 then
      Startup.fatal ("Invalid port: " ++ toString cfg.Server.Port ++ " (must be 1-65535)")
    else
      Startup.validated cfg

/-- The port is in range and the host is not empty. -/
def ValidEndpoint (cfg : Config) : Prop :=
  1 ≤ cfg.Server.Port ∧ cfg.Server.Port ≤ 65535 ∧ cfg.Server.Host ≠ ""

/-! ## Sample environments -/

/-- A kernel serving a file with the bytes `content` whose statx size is `statSize`: open
returns descriptor 3, every read delivers at most two bytes, and `ready` tells whether the
completion of the close is on the channel when `closeFile` polls. -/
def fileWorld (content : List UInt8) (statSize : Nat) (ready : Bool) : World where
  maxAlloc := 2 ^ 48
  newRing := none
  prepOpenat := fun _ => none
  prepStatx := fun _ => none
  submitErr := fun _ _ => none
  completion := fun _ op =>
    match op with
    | Op.openat _ => ⟨none, 3, 0, []⟩
    | Op.statx _ => ⟨none, 0, statSize, []⟩
    | Op.pread _ len off =>
      ⟨none, ((content.drop off).take (min len 2)).length, 0, (content.drop off).take (min len 2)⟩
    | Op.close _ => ⟨none, 0, 0, []⟩
  pollReady := fun _ => ready

/-- A kernel for which the path does not exist: the open completes with an error. -/
def missingWorld : World where
  maxAlloc := 2 ^ 48
  newRing := none
  prepOpenat := fun _ => none
  prepStatx := fun _ => none
  submitErr := fun _ _ => none
  completion := fun _ _ => ⟨some "no such file or directory", 0, 0, []⟩
  pollReady := fun _ => false

/-- A file whose statx size (2) exceeds what can be read from it (1 byte), as for a file
truncated after the stat or a sysfs attribute. -/
def shortWorld : World :=
  fileWorld [7] 2 false

/-- A sparse file of `2^62` zero bytes, served like any other file. -/
def sparseWorld : World :=
  fileWorld (List.replicate (2 ^ 62) 0) (2 ^ 62) false

/-- A host whose machine id can be read and whose configuration file names port 8888 and no
host. -/
def hostlessEnv : Env where
  machineID := Except.ok "0123456789abcdef\n"
  loadConfig := fun _ => Except.ok ⟨⟨"", 8888⟩, ""⟩

/-- Nothing is in flight and the trace so far obeys the serial discipline. -/
def Quiet (st : Ring) : Prop :=
  st.inflight = [] ∧ serialRun st.trace = some none

/-- The trace so far obeys the serial discipline. -/
def Serial (st : Ring) : Prop :=
  ∃ p, serialRun st.trace = some p

/-! ## Basic facts -/

theorem wrapInt64_of_range (x : Int) (h1 : -2 ^ 63 ≤ x) (h2 : x < 2 ^ 63) : wrapInt64 x = x := by
  unfold wrapInt64
  split <;> omega

theorem bytesOf_append (a b : String) : bytesOf (a ++ b) = bytesOf a ++ bytesOf b := by
  simp [bytesOf, String.data_append]

theorem string_append_left_cancel (a p q : String) (h : a ++ p = a ++ q) : p = q := by
  have h1 := congrArg String.data h
  simp only [String.data_append] at h1
  exact String.ext (List.append_cancel_left h1)

theorem deferred_fst (f : Ring → Ring) (run : Outcome × Ring) : (deferred f run).1 = run.1 := by
  rcases run with ⟨o, st⟩
  cases o <;> rfl

theorem deferred_snd (f : Ring → Ring) (run : Outcome × Ring) :
    (deferred f run).2 = run.2 ∨ (deferred f run).2 = f run.2 := by
  rcases run with ⟨o, st⟩
  cases o <;> simp [deferred]

theorem chunkLen_eq (fileSize offset : Int) (h0 : 0 ≤ offset) (h1 : offset ≤ fileSize)
    (h2 : fileSize < 2 ^ 63) : chunkLen fileSize offset = min (fileSize - offset) chunkSize := by
  unfold chunkLen
  rw [wrapInt64_of_range (fileSize - offset) (by omega) (by omega)]
  unfold chunkSize
  split <;> omega

theorem length_bufAfter (len : Nat) (data : List UInt8) : (bufAfter len data).length = len := by
  unfold bufAfter
  simp only [List.length_append, List.length_take, List.length_replicate]
  omega

theorem take_bufAfter (len k : Nat) (data : List UInt8) (hk : data.length = k) (hlen : k ≤ len) :
    (bufAfter len data).take k = data := by
  unfold bufAfter
  have h1 : data.take len = data := List.take_of_length_le (by omega)
  rw [h1, List.take_append_of_le_length (by omega)]
  exact List.take_of_length_le (by omega)

/-! ## The stages under `context.Background()`, from a state with nothing in flight -/

theorem readLoop_zero (ctx : Context) (w : World) (result : Result) (fd fileSize offset : Int)
    (output : List UInt8) (st : Ring) :
    readLoop ctx w result fd fileSize 0 offset output st = (Outcome.running, st) := rfl

theorem readLoop_unfold (w : World) (result : Result) (fd fileSize offset : Int) (fuel : Nat)
    (output : List UInt8) (st : Ring) (hst : st.inflight = []) :
    readLoop Context.Background w result fd fileSize (fuel + 1) offset output st =
      if offset < fileSize then
        if chunkLen fileSize offset < 0 then (Outcome.panicked, st.tick)
        else
          match w.submitErr st.submits (nextRead fd fileSize offset) with
          | some err =>
            (Outcome.returned (failWith result ("Failed to submit read request: " ++ err)),
              refusal st.tick (nextRead fd fileSize offset))
          | none =>
            match (w.completion st.submits (nextRead fd fileSize offset)).err with
            | some err =>
              (Outcome.returned (failWith result ("Failed to read file: " ++ err)),
                exchange w st.tick (nextRead fd fileSize offset))
            | none =>
              if (w.completion st.submits (nextRead fd fileSize offset)).ret ≤ 0 then
                readLoop Context.Background w result fd fileSize fuel offset output
                  (exchange w st.tick (nextRead fd fileSize offset))
              else if chunkLen fileSize offset
                  < (w.completion st.submits (nextRead fd fileSize offset)).ret then
                (Outcome.panicked, exchange w st.tick (nextRead fd fileSize offset))
              else
                readLoop Context.Background w result fd fileSize fuel
                  (wrapInt64 (offset + (w.completion st.submits (nextRead fd fileSize offset)).ret))
                  (output ++ (bufAfter (chunkLen fileSize offset).toNat
                      (w.completion st.submits (nextRead fd fileSize offset)).data).take
                    (w.completion st.submits (nextRead fd fileSize offset)).ret.toNat)
                  ((exchange w st.tick (nextRead fd fileSize offset)).emit
                    (Event.appended
                      (w.completion st.submits (nextRead fd fileSize offset)).ret.toNat))
      else
        (Outcome.returned { result with ReturnCode := 0, Output := output }, st) := by
  by_cases hlt : offset < fileSize
  · by_cases hneg : chunkLen fileSize offset < 0
    · have hneg1 := hneg
      unfold chunkLen at hneg1
      simp only [readLoop, hlt, if_true, Context.Background, Bool.false_eq_true, if_false, hneg,
        hneg1]
    · have hneg1 := hneg
      unfold chunkLen at hneg1
      cases hsub : w.submitErr st.submits (nextRead fd fileSize offset) with
      | some err =>
        have hsub1 := hsub
        unfold nextRead chunkLen at hsub1
        simp only [readLoop, hlt, if_true, Context.Background, Bool.false_eq_true, if_false, hneg,
          hneg1, SubmitRequest, Ring.tick, hsub1, refusal, nextRead, chunkLen]
      | none =>
        have hsub1 := hsub
        unfold nextRead chunkLen at hsub1
        cases herr : (w.completion st.submits (nextRead fd fileSize offset)).err with
        | some err =>
          have herr1 := herr
          unfold nextRead chunkLen at herr1
          simp only [readLoop, hlt, if_true, Context.Background, Bool.false_eq_true, if_false,
            hneg, hneg1, SubmitRequest, Ring.tick, hsub1, receive, hst, List.nil_append, herr1,
            nextRead, exchange, chunkLen]
        | none =>
          have herr1 := herr
          unfold nextRead chunkLen at herr1
          simp only [readLoop, hlt, if_true, Context.Background, Bool.false_eq_true, if_false,
            hneg, hneg1, SubmitRequest, Ring.tick, hsub1, receive, hst, List.nil_append, herr1,
            nextRead, exchange, chunkLen]
  · simp only [readLoop, hlt, if_false]

theorem closeFile_unfold (w : World) (fd : Int) (st : Ring) (hst : st.inflight = []) :
    closeFile w fd st =
      match w.submitErr st.submits (Op.close fd) with
      | some _ => refusal st (Op.close fd)
      | none =>
        if w.pollReady (st.submits + 1) then exchange w st (Op.close fd)
        else ⟨st.submits + 1, st.selects + 1, [(st.submits, Op.close fd)],
          st.trace ++ [Event.submitted (Op.close fd)]⟩ := by
  cases hsub : w.submitErr st.submits (Op.close fd) with
  | some err => simp only [closeFile, SubmitRequest, hsub, refusal]
  | none =>
    by_cases hp : w.pollReady (st.submits + 1) = true
    · simp only [closeFile, SubmitRequest, hsub, hp, if_true, receive, Ring.tick, hst,
        List.nil_append, exchange]
    · simp only [closeFile, SubmitRequest, hsub, hp, if_false, Ring.tick, hst, List.nil_append,
        Bool.false_eq_true]

theorem statAndRead_unfold (w : World) (result : Result) (fuel : Nat) (fd : Int) (st : Ring)
    (hst : st.inflight = []) :
    statAndRead Context.Background w result fuel fd st =
      match w.prepStatx fd with
      | some err =>
        (Outcome.returned (failWith result ("Failed to create statx request: " ++ err)), st)
      | none =>
        match w.submitErr st.submits (Op.statx fd) with
        | some err =>
          (Outcome.returned (failWith result ("Failed to submit statx request: " ++ err)),
            refusal st (Op.statx fd))
        | none =>
          match (w.completion st.submits (Op.statx fd)).err with
          | some err =>
            (Outcome.returned (failWith result ("Failed to get file size: " ++ err)),
              exchange w st (Op.statx fd))
          | none =>
            if capOutOfRange w (sizeOf64 (w.completion st.submits (Op.statx fd)))
            then (Outcome.panicked, exchange w st (Op.statx fd))
            else
              readLoop Context.Background w result fd
                (sizeOf64 (w.completion st.submits (Op.statx fd)))
                fuel 0 [] (exchange w st (Op.statx fd)) := by
  cases hprep : w.prepStatx fd with
  | some err => simp only [statAndRead, hprep]
  | none =>
    cases hsub : w.submitErr st.submits (Op.statx fd) with
    | some err => simp only [statAndRead, hprep, SubmitRequest, hsub, refusal]
    | none =>
      cases herr : (w.completion st.submits (Op.statx fd)).err with
      | some err =>
        simp only [statAndRead, hprep, SubmitRequest, hsub, Context.Background,
          Bool.false_eq_true, if_false, receive, Ring.tick, hst, List.nil_append, herr, exchange]
      | none =>
        simp only [statAndRead, hprep, SubmitRequest, hsub, Context.Background,
          Bool.false_eq_true, if_false, receive, Ring.tick, hst, List.nil_append, herr, exchange,
          sizeOf64]

theorem openAndRead_unfold (w : World) (result : Result) (fuel : Nat) (filePath : String)
    (st : Ring) (hst : st.inflight = []) :
    openAndRead Context.Background w result fuel filePath st =
      match w.prepOpenat filePath with
      | some err =>
        (Outcome.returned (failWith result ("Failed to create open request: " ++ err)), st)
      | none =>
        match w.submitErr st.submits (Op.openat filePath) with
        | some err =>
          (Outcome.returned (failWith result ("Failed to submit open request: " ++ err)),
            refusal st (Op.openat filePath))
        | none =>
          match (w.completion st.submits (Op.openat filePath)).err with
          | some err =>
            (Outcome.returned (failWith result ("Failed to open file: " ++ err)),
              exchange w st (Op.openat filePath))
          | none =>
            deferred (closeFile w (w.completion st.submits (Op.openat filePath)).ret)
              (statAndRead Context.Background w result fuel
                (w.completion st.submits (Op.openat filePath)).ret
                (exchange w st (Op.openat filePath))) := by
  cases hprep : w.prepOpenat filePath with
  | some err => simp only [openAndRead, hprep]
  | none =>
    cases hsub : w.submitErr st.submits (Op.openat filePath) with
    | some err => simp only [openAndRead, hprep, SubmitRequest, hsub, refusal]
    | none =>
      cases herr : (w.completion st.submits (Op.openat filePath)).err with
      | some err =>
        simp only [openAndRead, hprep, SubmitRequest, hsub, Context.Background,
          Bool.false_eq_true, if_false, receive, Ring.tick, hst, List.nil_append, herr, exchange]
      | none =>
        simp only [openAndRead, hprep, SubmitRequest, hsub, Context.Background,
          Bool.false_eq_true, if_false, receive, Ring.tick, hst, List.nil_append, herr, exchange]

theorem readLoop_finished (w : World) (result : Result) (fd fileSize offset : Int)
    (fuel : Nat) (output : List UInt8) (st : Ring) (hst : st.inflight = [])
    (h : ¬ offset < fileSize) :
    readLoop Context.Background w result fd fileSize (fuel + 1) offset output st
      = (Outcome.returned { result with ReturnCode := 0, Output := output }, st) := by
  rw [readLoop_unfold _ _ _ _ _ _ _ _ hst, if_neg h]

/-- One iteration of the loop when the read is accepted and completes without error. -/
theorem readLoop_step (w : World) (result : Result) (fd fileSize offset : Int) (fuel : Nat)
    (output : List UInt8) (st : Ring)
    (hlt : offset < fileSize) (hlen : 0 ≤ chunkLen fileSize offset)
    (hst : st.inflight = [])
    (hsub : w.submitErr st.submits (nextRead fd fileSize offset) = none)
    (herr : (w.completion st.submits (nextRead fd fileSize offset)).err = none) :
    readLoop Context.Background w result fd fileSize (fuel + 1) offset output st =
      if (w.completion st.submits (nextRead fd fileSize offset)).ret ≤ 0 then
        readLoop Context.Background w result fd fileSize fuel offset output
          (exchange w st.tick (nextRead fd fileSize offset))
      else if chunkLen fileSize offset
          < (w.completion st.submits (nextRead fd fileSize offset)).ret then
        (Outcome.panicked, exchange w st.tick (nextRead fd fileSize offset))
      else
        readLoop Context.Background w result fd fileSize fuel
          (wrapInt64 (offset + (w.completion st.submits (nextRead fd fileSize offset)).ret))
          (output ++ (bufAfter (chunkLen fileSize offset).toNat
              (w.completion st.submits (nextRead fd fileSize offset)).data).take
            (w.completion st.submits (nextRead fd fileSize offset)).ret.toNat)
          ((exchange w st.tick (nextRead fd fileSize offset)).emit
            (Event.appended (w.completion st.submits (nextRead fd fileSize offset)).ret.toNat)) := by
  rw [readLoop_unfold _ _ _ _ _ _ _ _ hst, if_pos hlt, if_neg (by omega)]
  simp only [hsub, herr]

/-- The run up to the loop when the ring is created and the open and the statx succeed. -/
theorem handleFileReadRequest_prelude (w : World) (fuel : Nat) (filePath : String)
    (hring : w.newRing = none) (hprep : w.prepOpenat filePath = none)
    (hsub0 : w.submitErr 0 (Op.openat filePath) = none)
    (hopen : (openCompletion w filePath).err = none)
    (hprep1 : w.prepStatx (openCompletion w filePath).ret = none)
    (hsub1 : w.submitErr 1 (Op.statx (openCompletion w filePath).ret) = none)
    (hstat : (statCompletion w filePath).err = none)
    (hsize : capOutOfRange w (statSize w filePath) = false) :
    handleFileReadRequest w fuel filePath =
      deferred (fun st => st.emit Event.ringClosed)
        (deferred (closeFile w (openCompletion w filePath).ret)
          (readLoop Context.Background w ⟨"file-read-" ++ filePath, 0, []⟩
            (openCompletion w filePath).ret (statSize w filePath) fuel 0 [] (afterStat w filePath))) := by
  have hsize1 := hsize
  unfold statSize statCompletion at hsize1
  unfold statCompletion at hstat
  unfold openCompletion at hopen hprep1 hsub1 hstat hsize1
  have h0 : Ring.init.submits = 0 := rfl
  have h1 : (exchange w Ring.init (Op.openat filePath)).submits = 1 := rfl
  simp only [handleFileReadRequest, handleFileReadRequestWith, hring]
  rw [openAndRead_unfold _ _ _ _ _ rfl]
  simp only [h0, hprep, hsub0, hopen]
  rw [statAndRead_unfold _ _ _ _ _ rfl]
  simp only [h1, hprep1, hsub1, hstat, hsize1, Bool.false_eq_true, if_false]
  rfl

/-! ## The CommandID of returned results -/

theorem readLoop_id (ctx : Context) (w : World) (result : Result) (fd fileSize : Int) (fuel : Nat)
    (offset : Int) (output : List UInt8) (st : Ring) (r : Result)
    (h : (readLoop ctx w result fd fileSize fuel offset output st).1 = Outcome.returned r) :
    r.CommandID = result.CommandID := by
  induction fuel generalizing offset output st with
  | zero => simp [readLoop] at h
  | succ n ih =>
    simp only [readLoop] at h
    repeat' split at h
    all_goals first
      | exact ih _ _ _ h
      | (simp at h; subst h; rfl)
      | simp at h

theorem statAndRead_id (ctx : Context) (w : World) (result : Result) (fuel : Nat) (fd : Int)
    (st : Ring) (r : Result)
    (h : (statAndRead ctx w result fuel fd st).1 = Outcome.returned r) :
    r.CommandID = result.CommandID := by
  simp only [statAndRead] at h
  repeat' split at h
  all_goals first
    | exact readLoop_id _ _ _ _ _ _ _ _ _ _ h
    | (simp at h; subst h; rfl)
    | simp at h

theorem openAndRead_id (ctx : Context) (w : World) (result : Result) (fuel : Nat)
    (filePath : String) (st : Ring) (r : Result)
    (h : (openAndRead ctx w result fuel filePath st).1 = Outcome.returned r) :
    r.CommandID = result.CommandID := by
  simp only [openAndRead] at h
  repeat' split at h
  all_goals first
    | (rw [deferred_fst] at h; exact statAndRead_id _ _ _ _ _ _ _ h)
    | (simp at h; subst h; rfl)
    | simp at h

/-- C7: whatever way `handleFileReadRequest` returns (success, failure to create the ring,
failure of a request or of a completion, cancellation under any context), the returned Result
has `CommandID = "file-read-" + filePath`; this is an injective function of the path. -/
theorem commandID_is_derived_from_path (ctx : Context) (w : World) (fuel : Nat)
    (filePath : String) (r : Result)
    (h : (handleFileReadRequestWith ctx w fuel filePath).1 = Outcome.returned r) :
    r.CommandID = "file-read-" ++ filePath ∧
      Function.Injective (fun p : String => "file-read-" ++ p) := by
  refine ⟨?_, fun p q hpq => string_append_left_cancel _ p q hpq⟩
  simp only [handleFileReadRequestWith] at h
  split at h
  · simp at h; subst h; rfl
  · rw [deferred_fst] at h
    exact openAndRead_id _ _ _ _ _ _ _ h

theorem commandID_is_derived_from_path_witness :
    (Result.mk "file-read-/no/such/file" 1
        (bytesOf "Failed to open file: no such file or directory")).CommandID
        = "file-read-" ++ "/no/such/file" ∧
      Function.Injective (fun p : String => "file-read-" ++ p) :=
  commandID_is_derived_from_path Context.Background missingWorld 0 "/no/such/file" _ (by decide)

/-! ## The open failure -/

/-- C2: when the ring was created, the open request was accepted and its completion carries
the error `err`, `handleFileReadRequest` returns `ReturnCode = 1` with the non-empty Output
`"Failed to open file: " + err` (it starts with "Failed to open file" and ends with the error
text), and the open is the only request it submitted or tried to submit: no stat, no read and
no close. -/
theorem open_failure_reply (w : World) (fuel : Nat) (filePath err : String)
    (hring : w.newRing = none) (hprep : w.prepOpenat filePath = none)
    (hsub : w.submitErr 0 (Op.openat filePath) = none)
    (hopen : (openCompletion w filePath).err = some err) :
    (handleFileReadRequest w fuel filePath).1 =
        Outcome.returned ⟨"file-read-" ++ filePath, 1, bytesOf ("Failed to open file: " ++ err)⟩ ∧
      bytesOf ("Failed to open file: " ++ err) ≠ [] ∧
      bytesOf "Failed to open file" <+: bytesOf ("Failed to open file: " ++ err) ∧
      bytesOf err <:+ bytesOf ("Failed to open file: " ++ err) ∧
      (handleFileReadRequest w fuel filePath).2.trace =
        [Event.submitted (Op.openat filePath),
         Event.received (Op.openat filePath) (openCompletion w filePath),
         Event.ringClosed] ∧
      (∀ op, Event.submitted op ∈ (handleFileReadRequest w fuel filePath).2.trace ∨
          Event.submitFailed op ∈ (handleFileReadRequest w fuel filePath).2.trace →
        op = Op.openat filePath) := by
  unfold openCompletion at hopen
  have hsplit : bytesOf "Failed to open file: " = bytesOf "Failed to open file" ++ bytesOf ": " := by
    decide
  have hne : bytesOf "Failed to open file" ≠ [] := by decide
  have htrace : (handleFileReadRequest w fuel filePath).2.trace =
        [Event.submitted (Op.openat filePath),
         Event.received (Op.openat filePath) (openCompletion w filePath),
         Event.ringClosed] := by
    simp [handleFileReadRequest, handleFileReadRequestWith, openAndRead, SubmitRequest, receive,
      Ring.init, Ring.tick, Context.Background, hring, hprep, hsub, hopen, deferred, failWith,
      Ring.emit, openCompletion]
  refine ⟨?_, ?_, ?_, ?_, htrace, ?_⟩
  · simp [handleFileReadRequest, handleFileReadRequestWith, openAndRead, SubmitRequest, receive,
      Ring.init, Ring.tick, Context.Background, hring, hprep, hsub, hopen, deferred, failWith]
  · rw [bytesOf_append, hsplit]
    simp [hne]
  · rw [bytesOf_append, hsplit, List.append_assoc]
    exact List.prefix_append _ _
  · rw [bytesOf_append]
    exact List.suffix_append _ _
  · intro op hop
    rw [htrace] at hop
    simp at hop
    exact hop

theorem open_failure_reply_witness :
    (handleFileReadRequest missingWorld 0 "/no/such/file").1 =
        Outcome.returned ⟨"file-read-" ++ "/no/such/file", 1,
          bytesOf ("Failed to open file: " ++ "no such file or directory")⟩ ∧
      bytesOf ("Failed to open file: " ++ "no such file or directory") ≠ [] ∧
      bytesOf "Failed to open file" <+:
        bytesOf ("Failed to open file: " ++ "no such file or directory") ∧
      bytesOf "no such file or directory" <:+
        bytesOf ("Failed to open file: " ++ "no such file or directory") ∧
      (handleFileReadRequest missingWorld 0 "/no/such/file").2.trace =
        [Event.submitted (Op.openat "/no/such/file"),
         Event.received (Op.openat "/no/such/file") (openCompletion missingWorld "/no/such/file"),
         Event.ringClosed] ∧
      (∀ op, Event.submitted op ∈ (handleFileReadRequest missingWorld 0 "/no/such/file").2.trace ∨
          Event.submitFailed op ∈ (handleFileReadRequest missingWorld 0 "/no/such/file").2.trace →
        op = Op.openat "/no/such/file") :=
  open_failure_reply missingWorld 0 "/no/such/file" "no such file or directory" rfl rfl rfl rfl

/-! ## The zero-length read -/

theorem shortWorld_spins (result : Result) (fuel : Nat) (output : List UInt8) (st : Ring)
    (hst : st.inflight = []) :
    (readLoop Context.Background shortWorld result 3 2 fuel 1 output st).1 = Outcome.running ∧
    (readLoop Context.Background shortWorld result 3 2 fuel 1 output st).2.submits
      = st.submits + fuel := by
  induction fuel generalizing st with
  | zero => simp [readLoop_zero]
  | succ n ih =>
    have hop : nextRead 3 2 1 = Op.pread 3 1 1 := by decide
    rw [readLoop_step shortWorld result 3 2 1 n output st (by decide) (by decide) hst
      (by rw [hop]; rfl) (by rw [hop]; rfl), hop]
    have hret : (shortWorld.completion st.submits (Op.pread 3 1 1)).ret = 0 := rfl
    rw [if_pos (by rw [hret])]
    obtain ⟨ha, hb⟩ := ih (exchange shortWorld st.tick (Op.pread 3 1 1)) rfl
    refine ⟨ha, ?_⟩
    rw [hb]
    simp only [exchange, Ring.tick]
    omega

/-- The run on `shortWorld`: still inside the loop for every positive fuel, one read more for
every unit of fuel. -/
theorem shortWorld_run (fuel : Nat) :
    (handleFileReadRequest shortWorld (fuel + 1) "/sys/power/state").1 = Outcome.running ∧
    (handleFileReadRequest shortWorld (fuel + 1) "/sys/power/state").2.submits = fuel + 3 := by
  have hpre := handleFileReadRequest_prelude shortWorld (fuel + 1) "/sys/power/state"
    rfl rfl rfl rfl rfl rfl rfl (by decide)
  have hfd : (openCompletion shortWorld "/sys/power/state").ret = 3 := rfl
  have hsz : statSize shortWorld "/sys/power/state" = 2 := by decide
  rw [hfd, hsz] at hpre
  have hop : nextRead 3 2 0 = Op.pread 3 2 0 := by decide
  have hstep := readLoop_step shortWorld ⟨"file-read-" ++ "/sys/power/state", 0, []⟩ 3 2 0 fuel []
    (afterStat shortWorld "/sys/power/state") (by decide) (by decide) rfl
    (by rw [hop]; rfl) (by rw [hop]; rfl)
  rw [hop] at hstep
  have hret : (shortWorld.completion (afterStat shortWorld "/sys/power/state").submits
      (Op.pread 3 2 0)).ret = 1 := rfl
  have hlen : chunkLen 2 0 = 2 := by decide
  rw [hret, hlen, if_neg (by decide), if_neg (by decide)] at hstep
  have hoff : wrapInt64 (0 + 1) = 1 := by decide
  rw [hoff] at hstep
  rw [hstep] at hpre
  obtain ⟨ha, hb⟩ := shortWorld_spins ⟨"file-read-" ++ "/sys/power/state", 0, []⟩ fuel
    ([] ++ List.take (Int.toNat 1) (bufAfter (Int.toNat 2)
      (shortWorld.completion (afterStat shortWorld "/sys/power/state").submits (Op.pread 3 2 0)).data))
    ((exchange shortWorld (afterStat shortWorld "/sys/power/state").tick (Op.pread 3 2 0)).emit
      (Event.appended (Int.toNat 1))) rfl
  have h3 : ((exchange shortWorld (afterStat shortWorld "/sys/power/state").tick (Op.pread 3 2 0)).emit
      (Event.appended (Int.toNat 1))).submits = 3 := rfl
  rw [h3] at hb
  rw [hpre]
  generalize readLoop _ _ _ _ _ _ _ _ _ = run at ha hb ⊢
  rcases run with ⟨o, st⟩
  simp only at ha hb
  subst ha
  simp only [deferred, hb]
  exact ⟨trivial, by omega⟩

/-- C3: on a file whose statx size is 2 and from which one byte can be read, the second read
completes with zero bytes and no error; `handleFileReadRequest` then neither returns nor stops
reading: whatever the fuel, the run is still inside the loop, and every further unit of fuel
is one more read submitted. -/
theorem zero_length_read_spins (fuel : Nat) :
    (handleFileReadRequest shortWorld (fuel + 1) "/sys/power/state").1 = Outcome.running ∧
    (handleFileReadRequest shortWorld (fuel + 1) "/sys/power/state").2.submits = fuel + 3 :=
  shortWorld_run fuel

/-! ## The full read -/

theorem readLoop_reads_all (w : World) (result : Result) (fd : Int) (content : List UInt8)
    (hsubmit : ∀ n op, w.submitErr n op = none)
    (hbound : content.length < 2 ^ 63)
    (hread : ∀ n len off, 1 ≤ len → off + len ≤ content.length →
      (w.completion n (Op.pread fd len off)).err = none ∧
      1 ≤ (w.completion n (Op.pread fd len off)).ret ∧
      (w.completion n (Op.pread fd len off)).ret ≤ len ∧
      (w.completion n (Op.pread fd len off)).data
        = (content.drop off).take (w.completion n (Op.pread fd len off)).ret.toNat)
    (m : Nat) :
    ∀ (fuel offset : Nat) (st : Ring), st.inflight = [] → offset ≤ content.length →
      content.length - offset ≤ m → m + 1 ≤ fuel →
      (readLoop Context.Background w result fd content.length fuel offset
          (content.take offset) st).1
        = Outcome.returned { result with ReturnCode := 0, Output := content } := by
  induction m with
  | zero =>
    intro fuel offset st hst hle hm hfuel
    obtain ⟨f, rfl⟩ : ∃ f, fuel = f + 1 := ⟨fuel - 1, by omega⟩
    have hoff : offset = content.length := by omega
    rw [readLoop_finished _ _ _ _ _ _ _ _ hst (by omega)]
    subst hoff
    simp
  | succ m ih =>
    intro fuel offset st hst hle hm hfuel
    obtain ⟨f, rfl⟩ : ∃ f, fuel = f + 1 := ⟨fuel - 1, by omega⟩
    by_cases hlt : offset < content.length
    · have hchunk := chunkLen_eq (content.length : Int) (offset : Int) (by omega) (by omega)
        (by exact_mod_cast hbound)
      have hc1 : 1 ≤ chunkLen (content.length : Int) (offset : Int) := by
        rw [hchunk]; unfold chunkSize; omega
      have hc2 : (offset : Int) + chunkLen (content.length : Int) (offset : Int)
          ≤ content.length := by
        rw [hchunk]; omega
      have hop : nextRead fd (content.length : Int) (offset : Int)
          = Op.pread fd (chunkLen (content.length : Int) (offset : Int)).toNat offset := by
        unfold nextRead
        congr 1
        omega
      obtain ⟨herr, hret1, hret2, hdata⟩ := hread st.submits
        (chunkLen (content.length : Int) (offset : Int)).toNat offset (by omega) (by omega)
      rw [readLoop_step w result fd _ _ f _ st (by omega)
        (by omega) hst (hsubmit _ _)
        (by rw [hop]; exact herr), hop]
      rw [if_neg (by omega), if_neg (by omega)]
      generalize hk : (w.completion st.submits
        (Op.pread fd (chunkLen (content.length : Int) (offset : Int)).toNat offset)).ret = k
        at hret1 hret2 hdata ⊢
      have hwrap : wrapInt64 ((offset : Int) + k) = ((offset + k.toNat : Nat) : Int) := by
        rw [wrapInt64_of_range _ (by omega) (by omega)]
        omega
      have hlenData : ((content.drop offset).take k.toNat).length = k.toNat := by
        rw [List.length_take, List.length_drop]
        omega
      rw [hwrap, hdata, take_bufAfter _ _ _ hlenData (by omega), ← List.take_add]
      exact ih f (offset + k.toNat) _ rfl (by omega) (by omega) (by omega)
    · have hoff : offset = content.length := by omega
      rw [readLoop_finished _ _ _ _ _ _ _ _ hst (by omega)]
      subst hoff
      simp

/-- C1, amended: when the ring is created and accepts every request, the open and the statx
complete without error, the statx reports the length `S` of `content`, `S` is a file size
(below `2^63`) that does not exceed the allocator limit `maxAlloc`, and every read of
`len >= 1` bytes at an offset `off` with `off + len <= S` completes without error with `k`
bytes, `1 <= k <= len`, equal to `content[off .. off+k)`, then `handleFileReadRequest` returns
`ReturnCode = 0` with `Output = content` (so of length `S`) as soon as the fuel covers the at
most `S + 1` evaluations of the loop condition.  `S = 0`, `S` not a multiple of 32768 and
`S > 32768` are included. -/
theorem full_read_returns_content (w : World) (fuel : Nat) (filePath : String)
    (content : List UInt8)
    (hring : w.newRing = none) (hprep : w.prepOpenat filePath = none)
    (hsubmit : ∀ n op, w.submitErr n op = none)
    (hopen : (openCompletion w filePath).err = none)
    (hprep1 : w.prepStatx (openCompletion w filePath).ret = none)
    (hstat : (statCompletion w filePath).err = none)
    (hsize : (statCompletion w filePath).size = content.length)
    (hbound : content.length < 2 ^ 63)
    (hcap : content.length ≤ w.maxAlloc)
    (hread : ∀ n len off, 1 ≤ len → off + len ≤ content.length →
      (w.completion n (Op.pread (openCompletion w filePath).ret len off)).err = none ∧
      1 ≤ (w.completion n (Op.pread (openCompletion w filePath).ret len off)).ret ∧
      (w.completion n (Op.pread (openCompletion w filePath).ret len off)).ret ≤ len ∧
      (w.completion n (Op.pread (openCompletion w filePath).ret len off)).data
        = (content.drop off).take
            (w.completion n (Op.pread (openCompletion w filePath).ret len off)).ret.toNat)
    (hfuel : content.length + 1 ≤ fuel) :
    (handleFileReadRequest w fuel filePath).1
        = Outcome.returned ⟨"file-read-" ++ filePath, 0, content⟩ := by
  have hsz : statSize w filePath = (content.length : Int) := by
    unfold statSize sizeOf64
    rw [hsize, Nat.mod_eq_of_lt (by omega), wrapInt64_of_range _ (by omega) (by omega)]
  rw [handleFileReadRequest_prelude w fuel filePath hring hprep (hsubmit _ _) hopen hprep1
    (hsubmit _ _) hstat (by rw [hsz]; simp [capOutOfRange]; omega), deferred_fst, deferred_fst,
    hsz]
  have := readLoop_reads_all w ⟨"file-read-" ++ filePath, 0, []⟩ (openCompletion w filePath).ret
    content hsubmit hbound hread content.length fuel 0 (afterStat w filePath) rfl (by omega)
    (by omega) hfuel
  simpa using this

theorem fileWorld_pread (content : List UInt8) (statSize : Nat) (ready : Bool) (n : Nat)
    (fd : Int) (len off : Nat) :
    (fileWorld content statSize ready).completion n (Op.pread fd len off)
      = ⟨none, ((content.drop off).take (min len 2)).length, 0,
          (content.drop off).take (min len 2)⟩ := rfl

theorem fileWorld_serves (content : List UInt8) (statSize : Nat) (ready : Bool) (n : Nat)
    (fd : Int) (len off : Nat) (h1 : 1 ≤ len) (h2 : off + len ≤ content.length) :
    ((fileWorld content statSize ready).completion n (Op.pread fd len off)).err = none ∧
    1 ≤ ((fileWorld content statSize ready).completion n (Op.pread fd len off)).ret ∧
    ((fileWorld content statSize ready).completion n (Op.pread fd len off)).ret ≤ len ∧
    ((fileWorld content statSize ready).completion n (Op.pread fd len off)).data
      = (content.drop off).take
          ((fileWorld content statSize ready).completion n (Op.pread fd len off)).ret.toNat := by
  rw [fileWorld_pread]
  simp only [List.length_take, List.length_drop, Int.toNat_ofNat]
  refine ⟨trivial, by omega, by omega, ?_⟩
  rw [List.take_eq_take]
  simp only [List.length_drop]
  omega

theorem full_read_returns_content_witness :
    (handleFileReadRequest (fileWorld [10, 20, 30] 3 false) 4 "/tmp/x").1
      = Outcome.returned ⟨"file-read-" ++ "/tmp/x", 0, [10, 20, 30]⟩ :=
  full_read_returns_content (fileWorld [10, 20, 30] 3 false) 4 "/tmp/x" [10, 20, 30]
    rfl rfl (fun _ _ => rfl) rfl rfl rfl rfl (by decide) (by decide)
    (fun n len off h1 h2 => fileWorld_serves [10, 20, 30] 3 false n _ len off h1 h2)
    (by decide)

/-- The run up to the allocation when the ring is created, the open and the statx succeed, and
the size is out of range for `make`: the function panics before any read. -/
theorem handleFileReadRequest_outOfRange (w : World) (fuel : Nat) (filePath : String)
    (hring : w.newRing = none) (hprep : w.prepOpenat filePath = none)
    (hsub0 : w.submitErr 0 (Op.openat filePath) = none)
    (hopen : (openCompletion w filePath).err = none)
    (hprep1 : w.prepStatx (openCompletion w filePath).ret = none)
    (hsub1 : w.submitErr 1 (Op.statx (openCompletion w filePath).ret) = none)
    (hstat : (statCompletion w filePath).err = none)
    (hsize : capOutOfRange w (statSize w filePath) = true) :
    handleFileReadRequest w fuel filePath =
      deferred (fun st => st.emit Event.ringClosed)
        (deferred (closeFile w (openCompletion w filePath).ret)
          (Outcome.panicked, afterStat w filePath)) := by
  have hsize1 := hsize
  unfold statSize statCompletion at hsize1
  unfold statCompletion at hstat
  unfold openCompletion at hopen hprep1 hsub1 hstat hsize1
  have h0 : Ring.init.submits = 0 := rfl
  have h1 : (exchange w Ring.init (Op.openat filePath)).submits = 1 := rfl
  simp only [handleFileReadRequest, handleFileReadRequestWith, hring]
  rw [openAndRead_unfold _ _ _ _ _ rfl]
  simp only [h0, hprep, hsub0, hopen]
  rw [statAndRead_unfold _ _ _ _ _ rfl]
  simp only [h1, hprep1, hsub1, hstat, hsize1, if_true]
  rfl

/-- C1, as stated, fails: on a sparse file of `2^62` bytes every premise of the claim holds
(ring, open and statx succeed, the statx reports the size, every read within the file delivers
1 to `len` bytes of the content), yet `make([]byte, 0, fileSize)` panics with "cap out of
range" and the function returns no Result, whatever the fuel; no read is submitted. -/
theorem sparse_file_panics :
    (∀ fuel, (handleFileReadRequest sparseWorld fuel "/tmp/sparse").1 = Outcome.panicked) ∧
    (∀ fuel fd len off, Event.submitted (Op.pread fd len off)
      ∉ (handleFileReadRequest sparseWorld fuel "/tmp/sparse").2.trace) ∧
    sparseWorld.newRing = none ∧
    sparseWorld.prepOpenat "/tmp/sparse" = none ∧
    (∀ n op, sparseWorld.submitErr n op = none) ∧
    (openCompletion sparseWorld "/tmp/sparse").err = none ∧
    sparseWorld.prepStatx (openCompletion sparseWorld "/tmp/sparse").ret = none ∧
    (statCompletion sparseWorld "/tmp/sparse").err = none ∧
    (statCompletion sparseWorld "/tmp/sparse").size
      = (List.replicate (2 ^ 62) (0 : UInt8)).length ∧
    (List.replicate (2 ^ 62) (0 : UInt8)).length < 2 ^ 63 ∧
    (∀ n len off, 1 ≤ len → off + len ≤ (List.replicate (2 ^ 62) (0 : UInt8)).length →
      (sparseWorld.completion n
        (Op.pread (openCompletion sparseWorld "/tmp/sparse").ret len off)).err = none ∧
      1 ≤ (sparseWorld.completion n
        (Op.pread (openCompletion sparseWorld "/tmp/sparse").ret len off)).ret ∧
      (sparseWorld.completion n
        (Op.pread (openCompletion sparseWorld "/tmp/sparse").ret len off)).ret ≤ len ∧
      (sparseWorld.completion n
        (Op.pread (openCompletion sparseWorld "/tmp/sparse").ret len off)).data
        = ((List.replicate (2 ^ 62) (0 : UInt8)).drop off).take
            (sparseWorld.completion n
              (Op.pread (openCompletion sparseWorld "/tmp/sparse").ret len off)).ret.toNat) := by
  have hrun : ∀ fuel, handleFileReadRequest sparseWorld fuel "/tmp/sparse" =
      deferred (fun st => st.emit Event.ringClosed)
        (deferred (closeFile sparseWorld (openCompletion sparseWorld "/tmp/sparse").ret)
          (Outcome.panicked, afterStat sparseWorld "/tmp/sparse")) := fun fuel =>
    handleFileReadRequest_outOfRange sparseWorld fuel "/tmp/sparse" rfl rfl rfl rfl rfl rfl rfl
      (by decide)
  refine ⟨?_, ?_, rfl, rfl, fun _ _ => rfl, rfl, rfl, rfl, ?_, ?_, ?_⟩
  · intro fuel
    rw [hrun fuel, deferred_fst, deferred_fst]
  · intro fuel fd len off
    have htrace : (deferred (fun st => st.emit Event.ringClosed)
        (deferred (closeFile sparseWorld (openCompletion sparseWorld "/tmp/sparse").ret)
          (Outcome.panicked, afterStat sparseWorld "/tmp/sparse"))).2.trace =
        [Event.submitted (Op.openat "/tmp/sparse"),
         Event.received (Op.openat "/tmp/sparse") ⟨none, 3, 0, []⟩,
         Event.submitted (Op.statx 3),
         Event.received (Op.statx 3) ⟨none, 0, 2 ^ 62, []⟩,
         Event.submitted (Op.close 3),
         Event.ringClosed] := by decide
    rw [hrun fuel, htrace]
    intro hmem
    simp only [List.mem_cons, Event.submitted.injEq, List.mem_singleton, reduceCtorEq,
      List.not_mem_nil, or_false, false_or] at hmem
  · show (2 ^ 62 : Nat) = _
    exact (List.length_replicate _ _).symm
  · rw [List.length_replicate]
    decide
  · intro n len off h1 h2
    exact fileWorld_serves (List.replicate (2 ^ 62) 0) (2 ^ 62) false n _ len off h1 h2

/-! ## One request at a time -/

theorem serialRun_snoc (tr : List Event) (e : Event) :
    serialRun (tr ++ [e]) = (serialRun tr).bind (fun p => serialStep p e) := by
  simp [serialRun, List.foldlM_append]

theorem quiet_init : Quiet Ring.init := ⟨rfl, rfl⟩

theorem quiet_tick (st : Ring) (h : Quiet st) : Quiet st.tick := h

theorem quiet_refusal (st : Ring) (op : Op) (h : Quiet st) : Quiet (refusal st op) := by
  refine ⟨h.1, ?_⟩
  simp [refusal, serialRun_snoc, h.2, serialStep]

theorem quiet_exchange (w : World) (st : Ring) (op : Op) (h : Quiet st) :
    Quiet (exchange w st op) := by
  refine ⟨rfl, ?_⟩
  simp only [exchange]
  rw [serialRun_snoc, serialRun_snoc, h.2]
  simp only [Option.some_bind, serialStep, if_true]

theorem quiet_emit_appended (st : Ring) (k : Nat) (h : Quiet st) :
    Quiet (st.emit (Event.appended k)) := by
  refine ⟨h.1, ?_⟩
  simp [Ring.emit, serialRun_snoc, h.2, serialStep]

theorem readLoop_quiet (w : World) (result : Result) (fd fileSize : Int) (fuel : Nat) :
    ∀ (offset : Int) (output : List UInt8) (st : Ring), Quiet st →
      Quiet (readLoop Context.Background w result fd fileSize fuel offset output st).2 := by
  induction fuel with
  | zero => intro offset output st h; exact h
  | succ n ih =>
    intro offset output st h
    rw [readLoop_unfold _ _ _ _ _ _ _ _ h.1]
    repeat' split
    all_goals first
      | exact ih _ _ _ (quiet_emit_appended _ _ (quiet_exchange _ _ _ (quiet_tick _ h)))
      | exact ih _ _ _ (quiet_exchange _ _ _ (quiet_tick _ h))
      | exact quiet_exchange _ _ _ (quiet_tick _ h)
      | exact quiet_refusal _ _ (quiet_tick _ h)
      | exact quiet_tick _ h

theorem statAndRead_loop (w : World) (result : Result) (fuel : Nat) (fd : Int) (st : Ring)
    (hst : st.inflight = []) (hprep : w.prepStatx fd = none)
    (hsub : w.submitErr st.submits (Op.statx fd) = none)
    (herr : (w.completion st.submits (Op.statx fd)).err = none)
    (hsize : capOutOfRange w (sizeOf64 (w.completion st.submits (Op.statx fd))) = false) :
    statAndRead Context.Background w result fuel fd st =
      readLoop Context.Background w result fd (sizeOf64 (w.completion st.submits (Op.statx fd)))
        fuel 0 [] (exchange w st (Op.statx fd)) := by
  rw [statAndRead_unfold _ _ _ _ _ hst]
  simp only [hprep, hsub, herr, hsize, Bool.false_eq_true, if_false]

theorem statAndRead_outOfRange (w : World) (result : Result) (fuel : Nat) (fd : Int) (st : Ring)
    (hst : st.inflight = []) (hprep : w.prepStatx fd = none)
    (hsub : w.submitErr st.submits (Op.statx fd) = none)
    (herr : (w.completion st.submits (Op.statx fd)).err = none)
    (hsize : capOutOfRange w (sizeOf64 (w.completion st.submits (Op.statx fd))) = true) :
    statAndRead Context.Background w result fuel fd st =
      (Outcome.panicked, exchange w st (Op.statx fd)) := by
  rw [statAndRead_unfold _ _ _ _ _ hst]
  simp only [hprep, hsub, herr, hsize, if_true]

theorem statAndRead_quiet (w : World) (result : Result) (fuel : Nat) (fd : Int) (st : Ring)
    (h : Quiet st) : Quiet (statAndRead Context.Background w result fuel fd st).2 := by
  cases hprep : w.prepStatx fd with
  | some err =>
    rw [statAndRead_unfold _ _ _ _ _ h.1]
    simp only [hprep]
    exact h
  | none =>
    cases hsub : w.submitErr st.submits (Op.statx fd) with
    | some err =>
      rw [statAndRead_unfold _ _ _ _ _ h.1]
      simp only [hprep, hsub]
      exact quiet_refusal _ _ h
    | none =>
      cases herr : (w.completion st.submits (Op.statx fd)).err with
      | some err =>
        rw [statAndRead_unfold _ _ _ _ _ h.1]
        simp only [hprep, hsub, herr]
        exact quiet_exchange _ _ _ h
      | none =>
        cases hneg : capOutOfRange w (sizeOf64 (w.completion st.submits (Op.statx fd)))
        case true =>
          rw [statAndRead_outOfRange _ _ _ _ _ h.1 hprep hsub herr hneg]
          exact quiet_exchange _ _ _ h
        case false =>
          rw [statAndRead_loop _ _ _ _ _ h.1 hprep hsub herr hneg]
          exact readLoop_quiet w result fd _ fuel 0 [] _ (quiet_exchange w st (Op.statx fd) h)

theorem closeFile_serial (w : World) (fd : Int) (st : Ring) (h : Quiet st) :
    Serial (closeFile w fd st) := by
  rw [closeFile_unfold _ _ _ h.1]
  cases hsub : w.submitErr st.submits (Op.close fd) with
  | some err =>
    simp only []
    exact ⟨none, (quiet_refusal _ _ h).2⟩
  | none =>
    by_cases hp : w.pollReady (st.submits + 1) = true
    · simp only [hp, if_true]
      exact ⟨none, (quiet_exchange _ _ _ h).2⟩
    · simp only [hp, if_false, Bool.false_eq_true]
      exact ⟨some (Op.close fd), by simp [serialRun_snoc, h.2, serialStep]⟩

theorem openAndRead_serial (w : World) (result : Result) (fuel : Nat) (filePath : String)
    (st : Ring) (h : Quiet st) :
    Serial (openAndRead Context.Background w result fuel filePath st).2 := by
  rw [openAndRead_unfold _ _ _ _ _ h.1]
  cases hprep : w.prepOpenat filePath with
  | some err =>
    simp only []
    exact ⟨none, h.2⟩
  | none =>
    cases hsub : w.submitErr st.submits (Op.openat filePath) with
    | some err =>
      simp only []
      exact ⟨none, (quiet_refusal _ _ h).2⟩
    | none =>
      cases herr : (w.completion st.submits (Op.openat filePath)).err with
      | some err =>
        simp only []
        exact ⟨none, (quiet_exchange _ _ _ h).2⟩
      | none =>
        simp only []
        have hq := statAndRead_quiet w result fuel
          (w.completion st.submits (Op.openat filePath)).ret _
          (quiet_exchange w st (Op.openat filePath) h)
        rcases deferred_snd (closeFile w (w.completion st.submits (Op.openat filePath)).ret)
          (statAndRead Context.Background w result fuel
            (w.completion st.submits (Op.openat filePath)).ret
            (exchange w st (Op.openat filePath))) with h1 | h1
        · rw [h1]; exact ⟨none, hq.2⟩
        · rw [h1]; exact closeFile_serial _ _ _ hq

theorem handleFileReadRequest_serial (w : World) (fuel : Nat) (filePath : String) :
    Serial (handleFileReadRequest w fuel filePath).2 := by
  simp only [handleFileReadRequest, handleFileReadRequestWith]
  split
  · exact ⟨none, rfl⟩
  · obtain ⟨p, hp⟩ := openAndRead_serial w ⟨"file-read-" ++ filePath, 0, []⟩ fuel filePath
      Ring.init quiet_init
    rcases deferred_snd (fun st => st.emit Event.ringClosed)
      (openAndRead Context.Background w ⟨"file-read-" ++ filePath, 0, []⟩ fuel filePath
        Ring.init) with h1 | h1
    · rw [h1]; exact ⟨p, hp⟩
    · rw [h1]; exact ⟨p, by simp [Ring.emit, serialRun_snoc, hp, serialStep]⟩

theorem serialRun_split (pre post : List Event) (e : Event) (r : Option Op)
    (h : serialRun (pre ++ e :: post) = some r) :
    ∃ p q, serialRun pre = some p ∧ serialStep p e = some q := by
  unfold serialRun at h ⊢
  rw [List.foldlM_append] at h
  cases hp : List.foldlM serialStep none pre with
  | none => rw [hp] at h; simp at h
  | some p =>
    rw [hp] at h
    simp only [Option.bind_eq_bind, Option.some_bind, List.foldlM_cons] at h
    cases hq : serialStep p e with
    | none => rw [hq] at h; simp at h
    | some q => exact ⟨p, q, rfl, hq⟩

theorem awaiting_snoc (tr : List Event) (e : Event) :
    awaiting (tr ++ [e]) =
      match e with
      | Event.submitted op => awaiting tr ++ [op]
      | Event.received op _ => (awaiting tr).erase op
      | _ => awaiting tr := by
  simp [awaiting, List.foldl_append]

theorem lastSubmitted_snoc (tr : List Event) (e : Event) :
    lastSubmitted (tr ++ [e]) =
      match e with
      | Event.submitted op => some op
      | _ => lastSubmitted tr := by
  simp [lastSubmitted, List.foldl_append]

theorem serialRun_awaiting (tr : List Event) :
    ∀ p, serialRun tr = some p →
      awaiting tr = p.toList ∧ ∀ op, p = some op → lastSubmitted tr = some op := by
  induction tr using List.reverseRecOn with
  | nil =>
    intro p h
    have : p = none := by simpa [serialRun] using h.symm
    subst this
    exact ⟨rfl, by simp⟩
  | append_singleton l x ih =>
    intro p h
    rw [serialRun_snoc] at h
    cases hs : serialRun l with
    | none => rw [hs] at h; simp at h
    | some s =>
      rw [hs] at h
      obtain ⟨ha, hl⟩ := ih s hs
      rw [awaiting_snoc, lastSubmitted_snoc]
      cases x with
      | submitted op =>
        simp only [Option.some_bind, serialStep] at h
        split at h
        · rename_i hs0
          subst hs0
          simp at h
          subst h
          simp [ha]
        · simp at h
      | received op c =>
        simp only [Option.some_bind, serialStep] at h
        split at h
        · rename_i hs0
          subst hs0
          simp at h
          subst h
          simp [ha]
        · simp at h
      | submitFailed op =>
        simp only [Option.some_bind, serialStep, Option.some.injEq] at h
        subst h
        exact ⟨ha, hl⟩
      | appended k =>
        simp only [Option.some_bind, serialStep, Option.some.injEq] at h
        subst h
        exact ⟨ha, hl⟩
      | ringClosed =>
        simp only [Option.some_bind, serialStep, Option.some.injEq] at h
        subst h
        exact ⟨ha, hl⟩

/-- C9: in every run of `handleFileReadRequest` (its deferred `closeFile` included), at every
moment at most one accepted request awaits its completion; when a request is accepted by the
ring none is awaited; and every completion received from the channel is the completion of the
one awaited request, which is the request accepted last (so the completion of the open is never
taken for that of the stat or of a read, nor the other way round). -/
theorem completions_are_serialized (w : World) (fuel : Nat) (filePath : String) :
    (awaiting (handleFileReadRequest w fuel filePath).2.trace).length ≤ 1 ∧
    ∀ pre e post, (handleFileReadRequest w fuel filePath).2.trace = pre ++ e :: post →
      (awaiting pre).length ≤ 1 ∧
      (∀ op, e = Event.submitted op → awaiting pre = []) ∧
      (∀ op c, e = Event.received op c →
        awaiting pre = [op] ∧ lastSubmitted pre = some op) := by
  obtain ⟨r, hr⟩ := handleFileReadRequest_serial w fuel filePath
  constructor
  · rw [(serialRun_awaiting _ r hr).1]
    cases r <;> simp
  · intro pre e post hsplit
    rw [hsplit] at hr
    obtain ⟨p, q, hp, hq⟩ := serialRun_split pre post e r hr
    obtain ⟨ha, hl⟩ := serialRun_awaiting pre p hp
    refine ⟨?_, ?_, ?_⟩
    · rw [ha]; cases p <;> simp
    · intro op he
      subst he
      simp only [serialStep] at hq
      split at hq
      · rename_i hp0; subst hp0; simpa using ha
      · simp at hq
    · intro op c he
      subst he
      simp only [serialStep] at hq
      split at hq
      · rename_i hp0; subst hp0; exact ⟨by simpa using ha, hl op rfl⟩
      · simp at hq

/-! ## Sequential chunks -/

theorem chunkRun_snoc (S : Nat) (tr : List Event) (e : Event) :
    chunkRun S (tr ++ [e]) = (chunkRun S tr).bind (fun a => chunkStep S a e) := by
  simp [chunkRun, List.foldlM_append]

theorem chunkRun_refusal (S a : Nat) (st : Ring) (op : Op)
    (h : chunkRun S st.trace = some a) (hop : chunkStep S a (Event.submitFailed op) = some a) :
    chunkRun S (refusal st op).trace = some a := by
  simp only [refusal]
  rw [chunkRun_snoc, h]
  exact hop

theorem chunkRun_exchange (S a : Nat) (w : World) (st : Ring) (op : Op)
    (h : chunkRun S st.trace = some a) (hop : chunkStep S a (Event.submitted op) = some a) :
    chunkRun S (exchange w st op).trace = some a := by
  simp only [exchange]
  rw [chunkRun_snoc, chunkRun_snoc, h]
  simp only [Option.some_bind, hop]
  rfl

theorem chunkStep_pread (S a : Nat) (fd : Int) (hlt : a < S) (hS : S < 2 ^ 63) :
    nextRead fd (S : Int) (a : Int)
        = Op.pread fd (min 32768 (S - a)) a ∧
      chunkStep S a (Event.submitted (Op.pread fd (min 32768 (S - a)) a)) = some a ∧
      chunkStep S a (Event.submitFailed (Op.pread fd (min 32768 (S - a)) a)) = some a ∧
      chunkLen (S : Int) (a : Int) = ((min 32768 (S - a) : Nat) : Int) := by
  have hchunk := chunkLen_eq (S : Int) (a : Int) (by omega) (by omega) (by exact_mod_cast hS)
  have hlen : chunkLen (S : Int) (a : Int) = ((min 32768 (S - a) : Nat) : Int) := by
    rw [hchunk]; unfold chunkSize; omega
  refine ⟨?_, ?_, ?_, hlen⟩
  · unfold nextRead
    rw [hlen]
    congr 1
    omega
  · simp only [chunkStep, true_and]
    rw [if_pos (by omega)]
  · simp only [chunkStep, true_and]
    rw [if_pos (by omega)]

theorem readLoop_refused (w : World) (result : Result) (fd fileSize offset : Int) (fuel : Nat)
    (output : List UInt8) (st : Ring) (err : String)
    (hlt : offset < fileSize) (hlen : 0 ≤ chunkLen fileSize offset) (hst : st.inflight = [])
    (hsub : w.submitErr st.submits (nextRead fd fileSize offset) = some err) :
    readLoop Context.Background w result fd fileSize (fuel + 1) offset output st =
      (Outcome.returned (failWith result ("Failed to submit read request: " ++ err)),
        refusal st.tick (nextRead fd fileSize offset)) := by
  rw [readLoop_unfold _ _ _ _ _ _ _ _ hst, if_pos hlt, if_neg (by omega)]
  simp only [hsub]

theorem readLoop_readErr (w : World) (result : Result) (fd fileSize offset : Int) (fuel : Nat)
    (output : List UInt8) (st : Ring) (err : String)
    (hlt : offset < fileSize) (hlen : 0 ≤ chunkLen fileSize offset) (hst : st.inflight = [])
    (hsub : w.submitErr st.submits (nextRead fd fileSize offset) = none)
    (herr : (w.completion st.submits (nextRead fd fileSize offset)).err = some err) :
    readLoop Context.Background w result fd fileSize (fuel + 1) offset output st =
      (Outcome.returned (failWith result ("Failed to read file: " ++ err)),
        exchange w st.tick (nextRead fd fileSize offset)) := by
  rw [readLoop_unfold _ _ _ _ _ _ _ _ hst, if_pos hlt, if_neg (by omega)]
  simp only [hsub, herr]

theorem readLoop_chunked (w : World) (result : Result) (fd : Int) (S : Nat) (hS : S < 2 ^ 63)
    (fuel : Nat) :
    ∀ (a : Nat) (output : List UInt8) (st : Ring), st.inflight = [] →
      chunkRun S st.trace = some a → a ≤ S → output.length = a →
      ∃ b, chunkRun S
          (readLoop Context.Background w result fd (S : Int) fuel (a : Int) output st).2.trace
            = some b ∧
        ∀ r, (readLoop Context.Background w result fd (S : Int) fuel (a : Int) output st).1
            = Outcome.returned r → r.ReturnCode = 0 → r.Output.length = b := by
  induction fuel with
  | zero =>
    intro a output st _ hrun _ _
    exact ⟨a, hrun, by intro r hr; simp [readLoop_zero] at hr⟩
  | succ n ih =>
    intro a output st hst hrun hle hout
    by_cases hlt : a < S
    · obtain ⟨hop, hsubmitted, hfailed, hlen⟩ := chunkStep_pread S a fd hlt hS
      have hlt1 : (a : Int) < (S : Int) := by omega
      have hlen0 : 0 ≤ chunkLen (S : Int) (a : Int) := by rw [hlen]; omega
      cases hsub : w.submitErr st.submits (nextRead fd (S : Int) (a : Int)) with
      | some err =>
        rw [readLoop_refused w result fd _ _ n output st err hlt1 hlen0 hst hsub, hop]
        refine ⟨a, chunkRun_refusal S a st.tick _ hrun hfailed, ?_⟩
        intro r hr h0
        simp only [Outcome.returned.injEq] at hr
        subst hr
        simp [failWith] at h0
      | none =>
        cases herr : (w.completion st.submits (nextRead fd (S : Int) (a : Int))).err with
        | some err =>
          rw [readLoop_readErr w result fd _ _ n output st err hlt1 hlen0 hst hsub herr, hop]
          refine ⟨a, chunkRun_exchange S a w st.tick _ hrun hsubmitted, ?_⟩
          intro r hr h0
          simp only [Outcome.returned.injEq] at hr
          subst hr
          simp [failWith] at h0
        | none =>
          rw [readLoop_step w result fd _ _ n output st hlt1 hlen0 hst hsub herr, hop, hlen]
          rw [hop] at herr
          generalize hk : (w.completion st.submits
            (Op.pread fd (min 32768 (S - a)) a)).ret = k
          have hq : chunkRun S (exchange w st.tick (Op.pread fd (min 32768 (S - a)) a)).trace
              = some a := chunkRun_exchange S a w st.tick _ hrun hsubmitted
          by_cases hk0 : k ≤ 0
          · rw [if_pos hk0]
            exact ih a output _ rfl hq hle hout
          · rw [if_neg hk0]
            by_cases hk1 : ((min 32768 (S - a) : Nat) : Int) < k
            · rw [if_pos hk1]
              exact ⟨a, hq, by intro r hr; simp at hr⟩
            · rw [if_neg hk1]
              have hwrap : wrapInt64 ((a : Int) + k) = ((a + k.toNat : Nat) : Int) := by
                rw [wrapInt64_of_range _ (by omega) (by omega)]
                omega
              rw [hwrap]
              refine ih (a + k.toNat) _ _ rfl ?_ (by omega) ?_
              · simp only [Ring.emit]
                rw [chunkRun_snoc, hq]
                simp only [Option.some_bind, chunkStep]
                rw [if_pos (by omega)]
              · rw [List.length_append, List.length_take, length_bufAfter, hout]
                omega
    · have hnlt : ¬ (a : Int) < (S : Int) := by omega
      rw [readLoop_finished w result fd _ _ n output st hst hnlt]
      refine ⟨a, hrun, ?_⟩
      intro r hr _
      simp only [Outcome.returned.injEq] at hr
      subst hr
      exact hout

theorem sizeOf64_inRange (w : World) (c : Completion)
    (h : capOutOfRange w (sizeOf64 c) = false) :
    c.size % 2 ^ 64 < 2 ^ 63 ∧ sizeOf64 c = ((c.size % 2 ^ 64 : Nat) : Int) := by
  have h0 : ¬ sizeOf64 c < 0 := by
    intro hlt
    simp [capOutOfRange, hlt] at h
  unfold sizeOf64 wrapInt64 at *
  split at h0 <;> split <;> omega

theorem chunkRun_closeFile (S b : Nat) (w : World) (fd : Int) (st : Ring)
    (hst : st.inflight = []) (h : chunkRun S st.trace = some b) :
    chunkRun S (closeFile w fd st).trace = some b := by
  rw [closeFile_unfold _ _ _ hst]
  cases hsub : w.submitErr st.submits (Op.close fd) with
  | some err =>
    simp only []
    exact chunkRun_refusal S b st _ h rfl
  | none =>
    by_cases hp : w.pollReady (st.submits + 1) = true
    · simp only [hp, if_true]
      exact chunkRun_exchange S b w st _ h rfl
    · simp only [hp, if_false, Bool.false_eq_true]
      rw [chunkRun_snoc, h]
      rfl

theorem statAndRead_chunked (w : World) (result : Result) (fuel : Nat) (fd : Int) (st : Ring)
    (hst : st.inflight = [])
    (h : chunkRun ((w.completion st.submits (Op.statx fd)).size % 2 ^ 64) st.trace = some 0) :
    ∃ b, chunkRun ((w.completion st.submits (Op.statx fd)).size % 2 ^ 64)
          (statAndRead Context.Background w result fuel fd st).2.trace = some b ∧
      ∀ r, (statAndRead Context.Background w result fuel fd st).1 = Outcome.returned r →
        r.ReturnCode = 0 → r.Output.length = b := by
  cases hprep : w.prepStatx fd with
  | some err =>
    rw [statAndRead_unfold _ _ _ _ _ hst]
    simp only [hprep]
    refine ⟨0, h, ?_⟩
    intro r hr h0
    simp only [Outcome.returned.injEq] at hr
    subst hr
    simp [failWith] at h0
  | none =>
    cases hsub : w.submitErr st.submits (Op.statx fd) with
    | some err =>
      rw [statAndRead_unfold _ _ _ _ _ hst]
      simp only [hprep, hsub]
      refine ⟨0, chunkRun_refusal _ 0 st _ h rfl, ?_⟩
      intro r hr h0
      simp only [Outcome.returned.injEq] at hr
      subst hr
      simp [failWith] at h0
    | none =>
      have hq := chunkRun_exchange _ 0 w st (Op.statx fd) h rfl
      cases herr : (w.completion st.submits (Op.statx fd)).err with
      | some err =>
        rw [statAndRead_unfold _ _ _ _ _ hst]
        simp only [hprep, hsub, herr]
        refine ⟨0, hq, ?_⟩
        intro r hr h0
        simp only [Outcome.returned.injEq] at hr
        subst hr
        simp [failWith] at h0
      | none =>
        cases hneg : capOutOfRange w (sizeOf64 (w.completion st.submits (Op.statx fd)))
        case true =>
          rw [statAndRead_outOfRange _ _ _ _ _ hst hprep hsub herr hneg]
          exact ⟨0, hq, by intro r hr; simp at hr⟩
        case false =>
          rw [statAndRead_loop _ _ _ _ _ hst hprep hsub herr hneg]
          obtain ⟨hS, hsz⟩ := sizeOf64_inRange _ _ hneg
          rw [hsz]
          have hloop := readLoop_chunked w result fd
            ((w.completion st.submits (Op.statx fd)).size % 2 ^ 64) hS fuel 0 []
            (exchange w st (Op.statx fd)) rfl hq (Nat.zero_le _) rfl
          simp only [Nat.cast_zero] at hloop
          exact hloop

theorem openAndRead_chunked (w : World) (result : Result) (fuel : Nat) (filePath : String)
    (st : Ring) (hst : Quiet st)
    (h : chunkRun ((w.completion (st.submits + 1)
      (Op.statx (w.completion st.submits (Op.openat filePath)).ret)).size % 2 ^ 64) st.trace
        = some 0) :
    ∃ b, chunkRun ((w.completion (st.submits + 1)
        (Op.statx (w.completion st.submits (Op.openat filePath)).ret)).size % 2 ^ 64)
          (openAndRead Context.Background w result fuel filePath st).2.trace = some b ∧
      ∀ r, (openAndRead Context.Background w result fuel filePath st).1 = Outcome.returned r →
        r.ReturnCode = 0 → r.Output.length = b := by
  rw [openAndRead_unfold _ _ _ _ _ hst.1]
  cases hprep : w.prepOpenat filePath with
  | some err =>
    simp only []
    refine ⟨0, h, ?_⟩
    intro r hr h0
    simp only [Outcome.returned.injEq] at hr
    subst hr
    simp [failWith] at h0
  | none =>
    cases hsub : w.submitErr st.submits (Op.openat filePath) with
    | some err =>
      simp only []
      refine ⟨0, chunkRun_refusal _ 0 st _ h rfl, ?_⟩
      intro r hr h0
      simp only [Outcome.returned.injEq] at hr
      subst hr
      simp [failWith] at h0
    | none =>
      have hq := chunkRun_exchange _ 0 w st (Op.openat filePath) h rfl
      cases herr : (w.completion st.submits (Op.openat filePath)).err with
      | some err =>
        simp only []
        refine ⟨0, hq, ?_⟩
        intro r hr h0
        simp only [Outcome.returned.injEq] at hr
        subst hr
        simp [failWith] at h0
      | none =>
        simp only []
        have hquiet := statAndRead_quiet w result fuel
          (w.completion st.submits (Op.openat filePath)).ret _
          (quiet_exchange w st (Op.openat filePath) hst)
        obtain ⟨b, hb, hout⟩ := statAndRead_chunked w result fuel
          (w.completion st.submits (Op.openat filePath)).ret
          (exchange w st (Op.openat filePath)) rfl hq
        refine ⟨b, ?_, ?_⟩
        · rcases deferred_snd (closeFile w (w.completion st.submits (Op.openat filePath)).ret)
            (statAndRead Context.Background w result fuel
              (w.completion st.submits (Op.openat filePath)).ret
              (exchange w st (Op.openat filePath))) with h1 | h1
          · rw [h1]; exact hb
          · rw [h1]; exact chunkRun_closeFile _ b w _ _ hquiet.1 hb
        · rw [deferred_fst]
          exact hout

theorem handleFileReadRequest_chunked (w : World) (fuel : Nat) (filePath : String) :
    ∃ b, chunkRun ((statCompletion w filePath).size % 2 ^ 64)
          (handleFileReadRequest w fuel filePath).2.trace = some b ∧
      ∀ r, (handleFileReadRequest w fuel filePath).1 = Outcome.returned r →
        r.ReturnCode = 0 → r.Output.length = b := by
  simp only [handleFileReadRequest, handleFileReadRequestWith]
  cases hring : w.newRing with
  | some err =>
    simp only []
    refine ⟨0, rfl, ?_⟩
    intro r hr h0
    simp only [Outcome.returned.injEq] at hr
    subst hr
    simp [failWith] at h0
  | none =>
    simp only []
    obtain ⟨b, hb, hout⟩ := openAndRead_chunked w ⟨"file-read-" ++ filePath, 0, []⟩ fuel filePath
      Ring.init quiet_init rfl
    refine ⟨b, ?_, ?_⟩
    · rcases deferred_snd (fun st => st.emit Event.ringClosed)
        (openAndRead Context.Background w ⟨"file-read-" ++ filePath, 0, []⟩ fuel filePath
          Ring.init) with h1 | h1
      · rw [h1]; exact hb
      · rw [h1]
        simp only [Ring.emit]
        rw [chunkRun_snoc]
        have hb1 : chunkRun ((statCompletion w filePath).size % 2 ^ 64)
            (openAndRead Context.Background w ⟨"file-read-" ++ filePath, 0, []⟩ fuel filePath
              Ring.init).2.trace = some b := hb
        rw [hb1]
        rfl
    · rw [deferred_fst]
      exact hout

theorem appendedBytes_append (l1 l2 : List Event) :
    appendedBytes (l1 ++ l2) = appendedBytes l1 + appendedBytes l2 := by
  induction l1 with
  | nil => simp [appendedBytes]
  | cons e l ih =>
    cases e <;> simp [appendedBytes, ih]
    omega

theorem chunkRun_split (S : Nat) (pre post : List Event) (e : Event) (r : Nat)
    (h : chunkRun S (pre ++ e :: post) = some r) :
    ∃ a b, chunkRun S pre = some a ∧ chunkStep S a e = some b := by
  unfold chunkRun at h ⊢
  rw [List.foldlM_append] at h
  cases hp : List.foldlM (chunkStep S) 0 pre with
  | none => rw [hp] at h; simp at h
  | some a =>
    rw [hp] at h
    simp only [Option.bind_eq_bind, Option.some_bind, List.foldlM_cons] at h
    cases hq : chunkStep S a e with
    | none => rw [hq] at h; simp at h
    | some b => exact ⟨a, b, rfl, hq⟩

theorem chunkStep_sound (S a b : Nat) (e : Event) (ha : a ≤ S) (h : chunkStep S a e = some b) :
    b = a + appendedBytes [e] ∧ b ≤ S := by
  cases e with
  | submitted op =>
    cases op <;> simp only [chunkStep, Option.some.injEq] at h
    · subst h; exact ⟨rfl, ha⟩
    · subst h; exact ⟨rfl, ha⟩
    · split at h
      · simp only [Option.some.injEq] at h; subst h; exact ⟨rfl, ha⟩
      · simp at h
    · subst h; exact ⟨rfl, ha⟩
  | submitFailed op =>
    cases op <;> simp only [chunkStep, Option.some.injEq] at h
    · subst h; exact ⟨rfl, ha⟩
    · subst h; exact ⟨rfl, ha⟩
    · split at h
      · simp only [Option.some.injEq] at h; subst h; exact ⟨rfl, ha⟩
      · simp at h
    · subst h; exact ⟨rfl, ha⟩
  | received op c =>
    simp only [chunkStep, Option.some.injEq] at h
    subst h; exact ⟨rfl, ha⟩
  | appended k =>
    simp only [chunkStep] at h
    split at h
    · simp only [Option.some.injEq] at h
      subst h
      exact ⟨by simp [appendedBytes], by omega⟩
    · simp at h
  | ringClosed =>
    simp only [chunkStep, Option.some.injEq] at h
    subst h; exact ⟨rfl, ha⟩

theorem chunkRun_sound (S : Nat) (tr : List Event) :
    ∀ a, chunkRun S tr = some a → appendedBytes tr = a ∧ a ≤ S := by
  induction tr using List.reverseRecOn with
  | nil =>
    intro a h
    have : a = 0 := by simpa [chunkRun] using h.symm
    subst this
    exact ⟨rfl, Nat.zero_le _⟩
  | append_singleton l x ih =>
    intro a h
    rw [chunkRun_snoc] at h
    cases hs : chunkRun S l with
    | none => rw [hs] at h; simp at h
    | some s =>
      rw [hs] at h
      simp only [Option.some_bind] at h
      obtain ⟨h1, h2⟩ := ih s hs
      obtain ⟨h3, h4⟩ := chunkStep_sound S s a x h2 h
      rw [appendedBytes_append, h1, h3]
      exact ⟨rfl, by omega⟩

/-- C8: with `S` the size the statx completion stored (a `uint64`), in every run of
`handleFileReadRequest` each read handed to `SubmitRequest` starts at the number of bytes
appended to the output so far and asks for `min(32768, S - offset)` bytes, which is at least 1
and at most 32768, so no read extends past byte `S`; a read that delivered `k` bytes is followed
by a read at `offset + k`; the output never holds more than `S` bytes, and a successful Result
carries exactly the bytes appended. -/
theorem reads_are_sequential_chunks (w : World) (fuel : Nat) (filePath : String) :
    (∀ pre e post, (handleFileReadRequest w fuel filePath).2.trace = pre ++ e :: post →
      (∀ fd len off,
        e = Event.submitted (Op.pread fd len off) ∨ e = Event.submitFailed (Op.pread fd len off) →
          off = appendedBytes pre ∧
          len = min 32768 ((statCompletion w filePath).size % 2 ^ 64 - off) ∧
          1 ≤ len ∧ len ≤ 32768 ∧
          off + len ≤ (statCompletion w filePath).size % 2 ^ 64) ∧
      (∀ k, e = Event.appended k →
        appendedBytes pre + k ≤ (statCompletion w filePath).size % 2 ^ 64)) ∧
    (∀ pre fd len off c k fd2 len2 off2 post,
      (handleFileReadRequest w fuel filePath).2.trace =
        pre ++ Event.submitted (Op.pread fd len off) :: Event.received (Op.pread fd len off) c ::
          Event.appended k :: Event.submitted (Op.pread fd2 len2 off2) :: post →
      off2 = off + k) ∧
    appendedBytes (handleFileReadRequest w fuel filePath).2.trace
      ≤ (statCompletion w filePath).size % 2 ^ 64 ∧
    (∀ r, (handleFileReadRequest w fuel filePath).1 = Outcome.returned r → r.ReturnCode = 0 →
      r.Output.length = appendedBytes (handleFileReadRequest w fuel filePath).2.trace) := by
  obtain ⟨b, hb, hout⟩ := handleFileReadRequest_chunked w fuel filePath
  obtain ⟨hbytes, hbS⟩ := chunkRun_sound _ _ b hb
  have key : ∀ pre e post, (handleFileReadRequest w fuel filePath).2.trace = pre ++ e :: post →
      (∀ fd len off,
        e = Event.submitted (Op.pread fd len off) ∨ e = Event.submitFailed (Op.pread fd len off) →
          off = appendedBytes pre ∧
          len = min 32768 ((statCompletion w filePath).size % 2 ^ 64 - off) ∧
          1 ≤ len ∧ len ≤ 32768 ∧
          off + len ≤ (statCompletion w filePath).size % 2 ^ 64) ∧
      (∀ k, e = Event.appended k →
        appendedBytes pre + k ≤ (statCompletion w filePath).size % 2 ^ 64) := by
    intro pre e post hsplit
    rw [hsplit] at hb
    obtain ⟨a, c, ha, hc⟩ := chunkRun_split _ pre post e b hb
    obtain ⟨hpre, haS⟩ := chunkRun_sound _ _ a ha
    constructor
    · intro fd len off he
      rcases he with he | he
      · subst he
        simp only [chunkStep] at hc
        split at hc
        · rename_i hcond
          obtain ⟨h1, h2, h3⟩ := hcond
          subst h1
          rw [hpre]
          refine ⟨rfl, h2, h3, by omega, by omega⟩
        · simp at hc
      · subst he
        simp only [chunkStep] at hc
        split at hc
        · rename_i hcond
          obtain ⟨h1, h2, h3⟩ := hcond
          subst h1
          rw [hpre]
          refine ⟨rfl, h2, h3, by omega, by omega⟩
        · simp at hc
    · intro k he
      subst he
      simp only [chunkStep] at hc
      split at hc
      · rw [hpre]; assumption
      · simp at hc
  refine ⟨key, ?_, by rw [hbytes]; exact hbS, by rw [hbytes]; exact hout⟩
  intro pre fd len off c k fd2 len2 off2 post hsplit
  have h1 := ((key pre _ _ hsplit).1 fd len off (Or.inl rfl)).1
  have hsplit2 : (handleFileReadRequest w fuel filePath).2.trace =
      (pre ++ [Event.submitted (Op.pread fd len off), Event.received (Op.pread fd len off) c,
        Event.appended k]) ++ Event.submitted (Op.pread fd2 len2 off2) :: post := by
    rw [hsplit]; simp
  have h2 := ((key _ _ _ hsplit2).1 fd2 len2 off2 (Or.inl rfl)).1
  rw [h2, appendedBytes_append, h1]
  simp [appendedBytes]

/-! ## The descriptor after the run -/

/-- C4: on a three-byte file read in full, with the completion of the close not yet on the
channel when `closeFile` polls it, `handleFileReadRequest` returns its successful Result while
the close of descriptor 3 is still in flight: it was accepted by the ring as the last request,
its completion was never received, and the ring is closed right after. -/
theorem returns_before_close_completes :
    (handleFileReadRequest (fileWorld [10, 20, 30] 3 false) 4 "/tmp/x").1
        = Outcome.returned ⟨"file-read-/tmp/x", 0, [10, 20, 30]⟩ ∧
      (handleFileReadRequest (fileWorld [10, 20, 30] 3 false) 4 "/tmp/x").2.inflight
        = [(4, Op.close 3)] ∧
      awaiting (handleFileReadRequest (fileWorld [10, 20, 30] 3 false) 4 "/tmp/x").2.trace
        = [Op.close 3] ∧
      (handleFileReadRequest (fileWorld [10, 20, 30] 3 false) 4 "/tmp/x").2.trace.getLast?
        = some Event.ringClosed := by
  decide

/-! ## The dispatcher -/

theorem validateClient_iff (cfg : Config) :
    (∃ c, validateClient cfg = Startup.validated c) ↔ ValidEndpoint cfg := by
  unfold validateClient ValidEndpoint
  constructor
  · intro h
    obtain ⟨c, hc⟩ := h
    split at hc
    · simp at hc
    · split at hc
      · simp at hc
      · refine ⟨by omega, by omega, by assumption⟩
  · intro h
    obtain ⟨h1, h2, h3⟩ := h
    rw [if_neg (by omega), if_neg h3]
    exact ⟨cfg, rfl⟩

theorem validateClient_fatal_or_validated (cfg : Config) :
    validateClient cfg = Startup.validated cfg ∨ ∃ msg, validateClient cfg = Startup.fatal msg := by
  unfold validateClient
  split
  · exact Or.inr ⟨_, rfl⟩
  · split
    · exact Or.inr ⟨_, rfl⟩
    · exact Or.inl rfl

/-- Agent mode of `cmd/main.go`: with the machine id and the configuration file read, start-up
passes validation exactly when the effective port is in 1..65535 and the effective host is not
empty. -/
theorem clientMain_validated_iff (env : Env) (flags : ClientFlags) (agentID : String)
    (cfg : Config) (hhelp : flags.help = false) (hmode : flags.interactive = false)
    (hid : env.machineID = Except.ok agentID) (hcfg : env.loadConfig flags.config = Except.ok cfg) :
    (∃ c, clientMain env flags = Startup.validated c) ↔
      ValidEndpoint (override { cfg with AgentID := agentID.trim } flags.host flags.port) := by
  simp only [clientMain, hhelp, hmode, hid, hcfg, Bool.false_eq_true, if_false]
  exact validateClient_iff _

/-- Interactive mode of `cmd/main.go`: the same, with the default configuration when the file
cannot be loaded. -/
theorem runInteractiveClient_validated_iff (env : Env) (configFile host : String) (port : Int)
    (agentID : String) (hid : env.machineID = Except.ok agentID) :
    (∃ c, runInteractiveClient env configFile host port = Startup.validated c) ↔
      ValidEndpoint (override
        { (match env.loadConfig configFile with
            | Except.error _ => defaultConfig
            | Except.ok c => c) with AgentID := agentID.trim } host port) := by
  simp only [runInteractiveClient, hid]
  exact validateClient_iff _

/-- The controller `server/main.go`: start-up passes validation exactly when the effective port
is in 1..65535; the host is not looked at. -/
theorem serverMain_validated_iff (env : Env) (flags : ServerFlags) (hhelp : flags.help = false) :
    (∃ c, serverMain env flags = Startup.validated c) ↔
      (1 ≤ (override (match env.loadConfig flags.config with
            | Except.error _ => defaultConfig
            | Except.ok c => c) flags.host flags.port).Server.Port ∧
        (override (match env.loadConfig flags.config with
            | Except.error _ => defaultConfig
            | Except.ok c => c) flags.host flags.port).Server.Port ≤ 65535) := by
  simp only [serverMain, hhelp, Bool.false_eq_true, if_false]
  constructor
  · intro h
    obtain ⟨c, hc⟩ := h
    split at hc
    · simp at hc
    · omega
  · intro h
    rw [if_neg (by omega)]
    exact ⟨_, rfl⟩

/-- C6: the controller started without `-host` on a configuration that names port 8888 and no
host passes validation with an empty effective host and goes on to listen, while the agent and
the interactive client started on the same configuration stop with "Server host cannot be
empty". -/
theorem controller_accepts_empty_host :
    serverMain hostlessEnv ⟨0, "", "cmd/config.json", false⟩
        = Startup.validated ⟨⟨"", 8888⟩, ""⟩ ∧
      ¬ ValidEndpoint ⟨⟨"", 8888⟩, ""⟩ ∧
      clientMain hostlessEnv ⟨false, "", 0, "cmd/config.json", false⟩
        = Startup.fatal "Server host cannot be empty" ∧
      clientMain hostlessEnv ⟨true, "", 0, "cmd/config.json", false⟩
        = Startup.fatal "Server host cannot be empty" := by
  refine ⟨by decide, ?_, by decide, by decide⟩
  intro h
  exact h.2.2 rfl

/-! ## The byte-stream adapter -/

/-- C10: a `Read` whose submission fails and a `Write` whose completion carries an error both
return the count -1 together with the error, so the count is not within `0 .. len(buf)` as the
`io.Reader` and `io.Writer` contracts, under which `gob` uses the adapter, demand. -/
theorem adapter_returns_minus_one :
    UringRWer.Read [0, 0] 2 (IOResult.submitFailed "EBADF")
        = Returned.value (-1) (some "EBADF") [0, 0] ∧
      UringRWer.Read [0, 0] 2 (IOResult.failed "ECONNRESET")
        = Returned.value (-1) (some "ECONNRESET") [0, 0] ∧
      UringRWer.Write [1, 2] (IOResult.failed "EPIPE")
        = Returned.value (-1) (some "EPIPE") [1, 2] ∧
      ¬ ∀ (buf : List UInt8) (cap : Nat) (io : IOResult) (n : Int) (err : Option String)
          (after : List UInt8), buf.length ≤ cap →
          UringRWer.Read buf cap io = Returned.value n err after → 0 ≤ n ∧ n ≤ buf.length := by
  refine ⟨rfl, rfl, rfl, ?_⟩
  intro h
  have := h [0, 0] 2 (IOResult.submitFailed "EBADF") (-1) (some "EBADF") [0, 0] (by decide) rfl
  omega

theorem length_stored (buf data : List UInt8) : (stored buf data).length = buf.length := by
  unfold stored
  simp only [List.length_append, List.length_take, List.length_drop]
  omega

theorem take_stored (buf data : List UInt8) (h : data.length ≤ buf.length) :
    (stored buf data).take data.length = data := by
  unfold stored
  rw [List.take_of_length_le h, List.take_left']
  rfl

/-- What `UringRWer.Read` and `UringRWer.Write` return, outcome by outcome: the count -1 with
the error when `SubmitRequest` fails or the completion carries an error, the buffer untouched;
when the completion reports `n` with `0 <= n <= len(buf)`, the count `n` and no error, the
buffer keeping its length, and after a `Read` the `n` delivered bytes are `buf[0 .. n)`. -/
theorem adapter_counts (buf : List UInt8) (cap : Nat) (hcap : buf.length ≤ cap) :
    (∀ err, UringRWer.Read buf cap (IOResult.submitFailed err)
        = Returned.value (-1) (some err) buf ∧
      UringRWer.Write buf (IOResult.submitFailed err) = Returned.value (-1) (some err) buf) ∧
    (∀ err, UringRWer.Read buf cap (IOResult.failed err) = Returned.value (-1) (some err) buf ∧
      UringRWer.Write buf (IOResult.failed err) = Returned.value (-1) (some err) buf) ∧
    (∀ (n : Int) (data : List UInt8), 0 ≤ n → n ≤ buf.length →
      UringRWer.Write buf (IOResult.completed n data) = Returned.value n none buf ∧
      UringRWer.Read buf cap (IOResult.completed n data)
        = Returned.value n none (stored buf data) ∧
      (stored buf data).length = buf.length ∧
      ((data.length : Int) = n → (stored buf data).take n.toNat = data)) := by
  refine ⟨fun err => ⟨rfl, rfl⟩, fun err => ⟨rfl, rfl⟩, ?_⟩
  intro n data h0 hn
  refine ⟨rfl, ?_, length_stored buf data, ?_⟩
  · simp only [UringRWer.Read]
    rw [if_neg (by omega)]
  · intro hlen
    have h1 : n.toNat = data.length := by omega
    rw [h1]
    exact take_stored buf data (by omega)

theorem adapter_counts_witness :
    UringRWer.Read [0, 0, 0] 4 (IOResult.completed 2 [7, 8])
        = Returned.value 2 none [7, 8, 0] ∧
      UringRWer.Write [7, 8, 9] (IOResult.completed 2 []) = Returned.value 2 none [7, 8, 9] ∧
      UringRWer.Read [0, 0, 0] 4 (IOResult.failed "ECONNRESET")
        = Returned.value (-1) (some "ECONNRESET") [0, 0, 0] :=
  ⟨((adapter_counts [0, 0, 0] 4 (by decide)).2.2 2 [7, 8] (by decide) (by decide)).2.1,
   ((adapter_counts [7, 8, 9] 4 (by decide)).2.2 2 [] (by decide) (by decide)).1,
   ((adapter_counts [0, 0, 0] 4 (by decide)).2.1 "ECONNRESET").1⟩

end Curing
